import Mathlib

/-!
# Verification of the Hedera EVM-address incoming-transfer monitor

Shallow embedding of the two monitor variants of the repository:

* `src/unnamed/part_004` — the REST-polling `EvmAddressMonitor` class
  (seen-set deduplication, per-transaction watermark advance, entity-id
  cache, transaction-body matching);
* `src/direct_database_query/evm-address-monitor-db.js` — the database
  variant (`ProtoParser.parseTransactionBytes` layered decode and the
  `pollOnce` credit/alias matcher).

External collaborators (the Mirror Node REST endpoints, the PostgreSQL
query, the protobuf codec of `@hashgraph/proto`, the Hedera SDK parser)
are modelled as oracles or as abstract wire values; all control flow of
the repository's own code is translated statement by statement.
-/

namespace HederaMonitor

/-! ## String helpers (JS primitives used by the source) -/

/-- JS `String.prototype.toLowerCase` restricted to the ASCII range the
source manipulates (hex strings and `0x` markers). -/
def lowerStr (s : String) : String :=
  String.mk (s.data.map Char.toLower)

/-- JS `s.replace("0x", "")` with a *string* pattern: removes the first
occurrence of `0x` anywhere in the string (this is what
`normalizeEvmAddress` of `src/unnamed/part_004` line 186 executes). -/
def remove0xFirst : List Char → List Char
  | '0' :: 'x' :: rest => rest
  | c :: rest => c :: remove0xFirst rest
  | [] => []

/-- JS `s.replace(/^0x/, "")`: removes `0x` only at the start of the
string (db variant, `evm-address-monitor-db.js` line 76). -/
def remove0xLead (cs : List Char) : List Char :=
  match cs with
  | '0' :: 'x' :: rest => rest
  | cs => cs

/-- Lowercase hex digit for a value `< 16`. -/
def hexDigit (n : Nat) : Char :=
  if n < 10 then Char.ofNat (48 + n) else Char.ofNat (87 + n)

/-- `Buffer.prototype.toString("hex")`: two lowercase hex digits per
byte. -/
def hexOfBytes (bs : List Nat) : String :=
  String.mk (bs.flatMap (fun b => [hexDigit (b % 256 / 16), hexDigit (b % 16)]))

/-! ## Address Normalizer

Two implementations exist in the source; both are embedded.
-/

/-- `normalizeEvmAddress` of `src/unnamed/part_004` (line 185–187):
`address.toLowerCase().replace("0x", "")`.  Total; no validation. -/
def normalizeEvmAddress (address : String) : String :=
  String.mk (remove0xFirst (lowerStr address).data)

/-- Input domain of the db-variant normalizer: a byte sequence
(`Buffer`/`Uint8Array`) or a string. -/
inductive RawAddressInput where
  | bytes (bs : List Nat)
  | str (s : String)
deriving DecidableEq, Repr

/-- `normalizeEvmAddress` of `evm-address-monitor-db.js` (lines 71–77):
`null` for a falsy input (absent or empty string), hex-encoding for a
byte sequence, else lowercase with the leading `0x` stripped.  No length
check of any kind is performed. -/
def normalizeEvmAddressDb : Option RawAddressInput → Option String
  | none => none
  | some (.bytes bs) => some (lowerStr (hexOfBytes bs))
  | some (.str s) =>
      if s = "" then none
      else some (String.mk (remove0xLead (lowerStr s).data))

/-! ## Identity Reconciler (the entity-id caches of `EvmAddressMonitor`)

`evmToEntityCache` / `entityToEvmCache` are JS `Map`s; they are embedded
as association lists with unique keys, looked up front to back.
-/

/-- Process-local state of the `EvmAddressMonitor` class
(`src/unnamed/part_004` lines 343–358): watermark, seen-set in insertion
order, and the two identity caches. -/
structure MonitorState where
  lastTimestamp : Option Nat
  processedTxIds : List String
  evmToEntityCache : List (String × String)
  entityToEvmCache : List (String × String)
deriving DecidableEq, Repr

/-- `updateCache` (`src/unnamed/part_004` lines 409–416): first-writer
wins — a no-op whenever `evmToEntityCache` already holds the normalized
address. -/
def updateCache (st : MonitorState) (evmAddress entityId : String) : MonitorState :=
  let normalized := normalizeEvmAddress evmAddress
  if (st.evmToEntityCache.lookup normalized).isSome then st
  else
    { st with
      evmToEntityCache := st.evmToEntityCache ++ [(normalized, entityId)]
      entityToEvmCache := st.entityToEvmCache ++ [(entityId, normalized)] }

/-! ## Envelope decoder — db variant (`ProtoParser.parseTransactionBytes`)

The protobuf codec of `@hashgraph/proto` is external; a serialized byte
field is embedded as an abstract wire value `BField α`: it is absent
(`null`), present but empty, present but malformed (`decode` throws), or
present and decoding to `α`.  This mirrors exactly the distinctions the
JS code makes: `||`-chains test for `null`, `.length > 0` tests for
emptiness, and `decode` either succeeds or throws into the `catch`.
-/

/-- One byte-string field of a decoded protobuf message. -/
inductive BField (α : Type) where
  /-- field not set (`null`/`undefined`) -/
  | null
  /-- present with `length === 0` -/
  | empty
  /-- present, `length > 0`, but `decode` throws on it -/
  | bad
  /-- present, `length > 0`, decoding to `val` -/
  | ok (val : α)
deriving DecidableEq, Repr

namespace BField

/-- JS truthiness of the field: only `null` is falsy (an empty `Buffer`
is truthy). -/
def isTruthy : BField α → Bool
  | .null => false
  | _ => true

/-- The guard `f && f.length > 0`. -/
def nonEmptyBytes : BField α → Bool
  | .ok _ => true
  | .bad => true
  | _ => false

/-- JS `a || b` on two byte fields. -/
def orElse (a b : BField α) : BField α :=
  if a.isTruthy then a else b

/-- The library `decode` call: succeeds on well-formed bytes, throws
(modelled as `none`, caught by the enclosing `try`) otherwise. -/
def decode : BField α → Option α
  | .ok a => some a
  | _ => none

end BField

/-- `AccountID` protobuf message: the fields inspected by the db
matcher.  `aliasBytes` stands for the proto field `alias` (a reserved
word in Lean). -/
structure AccountID where
  aliasBytes : Option (List Nat)
  accountNum : Option Nat
deriving DecidableEq, Repr

/-- One entry of the credit/debit list
(`cryptoTransfer.transfers.accountAmounts`).  The three account fields
mirror the historical proto field names probed by
`aa.accountID || aa.accountId || aa.account` (line 308–309). -/
structure AccountAmount where
  accountID : Option AccountID
  accountId : Option AccountID
  account : Option AccountID
  amount : Int
deriving DecidableEq, Repr

/-- `TransferList` message. -/
structure TransferList where
  accountAmounts : List AccountAmount
deriving DecidableEq, Repr

/-- `CryptoTransferTransactionBody` message. -/
structure CryptoTransferBody where
  transfers : Option TransferList
deriving DecidableEq, Repr

/-- `TransactionBody` message: the fields the db monitor reads.  The
`ethereumTransaction` branch requires the optional external `ethers`
decoder; the embedding models the monitor running without it (the source
explicitly supports that configuration and then emits nothing for such
rows), so the field only records presence. -/
structure TxBody where
  cryptoTransfer : Option CryptoTransferBody
  ethereumTransaction : Option Unit
  memo : String
deriving DecidableEq, Repr

/-- `SignedTransaction` message: `signed.bodyBytes || signed.body`
(line 157). -/
structure SignedTx where
  bodyBytes : BField TxBody
  body : BField TxBody
deriving DecidableEq, Repr

/-- Outer `Transaction` message with the four historical field names
probed for the signed-transaction bytes (lines 146–151), the legacy
direct `bodyBytes`, and a directly embedded `body` message. -/
structure PTransaction where
  signedTransactionBytes : BField SignedTx
  signedTransaction : BField SignedTx
  transactionBytes : BField SignedTx
  transaction_bytes : BField SignedTx
  bodyBytes : BField TxBody
  body : Option TxBody
deriving DecidableEq, Repr

/-- `ProtoParser.parseTransactionBytes` (`evm-address-monitor-db.js`
lines 140–171).  Any `decode` throw is caught and collapsed to `null`;
the function returns the transaction body or `null`, and nothing else —
in particular no record of which layer failed. -/
def parseTransactionBytes (txBytes : BField PTransaction) : Option TxBody :=
  if txBytes.nonEmptyBytes = false then none
  else
    match txBytes.decode with
    | none => none
    | some t =>
      let signedBytes :=
        ((t.signedTransactionBytes.orElse t.signedTransaction).orElse
          t.transactionBytes).orElse t.transaction_bytes
      if signedBytes.nonEmptyBytes then
        match signedBytes.decode with
        | none => none
        | some signed =>
          let bodyBytes := signed.bodyBytes.orElse signed.body
          if bodyBytes.nonEmptyBytes then bodyBytes.decode
          else none
      else if t.bodyBytes.nonEmptyBytes then t.bodyBytes.decode
      else t.body

/-! ## db-variant matcher and poll cycle (`pollOnce`) -/

/-- One row of the `transaction` table as fetched by `pollOnce`'s SQL
query (columns used by the code). -/
structure DbRow where
  consensus_timestamp : Nat
  transaction_bytes : BField PTransaction
  transaction_hash : String
deriving DecidableEq, Repr

/-- A match event printed by the db monitor (the fields of the `event`
object built at lines 321–332, minus presentation-only formatting). -/
structure DbEvent where
  evmAddress : String
  amountTinybar : Int
  transactionHash : String
  consensusTimestamp : Nat
  senderUsedEvmAddress : Bool
  memo : Option String
deriving DecidableEq, Repr

/-- The credit gate of the db matcher (lines 305–306): entries of the
credit/debit list that pass `amt.greaterThan(Long.ZERO)` and are
therefore the only entries ever considered as transfer destinations. -/
def consideredDestinations (aas : List AccountAmount) : List AccountAmount :=
  aas.filter (fun aa => 0 < aa.amount)

/-- The CRYPTOTRANSFER matching loop of `pollOnce` (lines 299–352) for
one decoded body: emit one event per positive-amount entry whose account
carries a 20-byte alias on the watchlist. -/
def dbMatchCrypto (watch : List String) (row : DbRow) (body : TxBody) : List DbEvent :=
  match body.cryptoTransfer with
  | none => []
  | some ct =>
    match ct.transfers with
    | none => []
    | some tl =>
      tl.accountAmounts.filterMap (fun aa =>
        if 0 < aa.amount then
          match (aa.accountID.orElse fun _ => aa.accountId).orElse (fun _ => aa.account) with
          | none => none
          | some acct =>
            match acct.aliasBytes with
            | some al =>
              if al.length = 20 then
                match normalizeEvmAddressDb (some (.str (hexOfBytes al))) with
                | some evm =>
                  if evm ∈ watch then
                    some { evmAddress := evm
                           amountTinybar := aa.amount
                           transactionHash := row.transaction_hash
                           consensusTimestamp := row.consensus_timestamp
                           senderUsedEvmAddress := true
                           memo := if body.memo = "" then none else some body.memo }
                  else none
                | none => none
              else none
            | none => none
        else none)

/-- One `pollOnce` cycle (lines 259–421) over the fetched rows (or a
query error).  Per row the cursor is advanced first
(`lastConsensusTs = row.consensus_timestamp || lastConsensusTs`, with
JS falsiness of `0`), then empty bytes and parse failures `continue` to
the next row; a query error is logged and leaves the cursor untouched. -/
def dbRowStep (watch : List String) (acc : Nat × List DbEvent) (row : DbRow) :
    Nat × List DbEvent :=
  let ts := if row.consensus_timestamp = 0 then acc.1 else row.consensus_timestamp
  if row.transaction_bytes.nonEmptyBytes = false then (ts, acc.2)
  else
    match parseTransactionBytes row.transaction_bytes with
    | none => (ts, acc.2)
    | some body => (ts, acc.2 ++ dbMatchCrypto watch row body)

def dbPollOnce (watch : List String) (st : Nat)
    (fetched : Except Unit (List DbRow)) : Nat × List DbEvent :=
  match fetched with
  | .error _ => (st, [])
  | .ok rows => rows.foldl (dbRowStep watch) (st, [])

/-! ## REST-variant monitor (`src/unnamed/part_004`)

The SDK body parser, the Mirror Node list endpoint and the per-
transaction detail endpoint are external; they enter the model as data
(`MirrorTx`) and as a detail oracle.  Everything below the oracle —
watch matching, seen-set, caches, watermark — is the repository's code.
-/

/-- `isWatchedAddress` (`src/unnamed/part_004` lines 206–209): falsy
input is unwatched, otherwise membership of the normalized form. -/
def isWatchedAddress (watch : List String) (evmAddress : String) : Bool :=
  if evmAddress = "" then false
  else watch.contains (normalizeEvmAddress evmAddress)

/-- Destination classification produced by the SDK-based
`parseTransactionBytes` (lines 244–255): an `evmAddress`, an
`aliasKey`, or a plain entity id. -/
inductive ParsedDest where
  | evmAddress (addr : String)
  | publicKeyAlias (key : String)
  | entityId (ent : String)
deriving DecidableEq, Repr

/-- One parsed transfer of the transaction body. -/
structure ParsedTransfer where
  dest : ParsedDest
  amountTinybar : Int
deriving DecidableEq, Repr

/-- `transfer.isCredit` (line 241): strictly positive tinybar amount. -/
def ParsedTransfer.isCredit (t : ParsedTransfer) : Bool :=
  decide (0 < t.amountTinybar)

/-- `transfer.isWatched` (line 247): only set (true) for EVM-address
destinations on the watchlist; `undefined` (false) otherwise. -/
def ParsedTransfer.isWatched (watch : List String) (t : ParsedTransfer) : Bool :=
  match t.dest with
  | .evmAddress a => isWatchedAddress watch a
  | _ => false

/-- `extractWatchedTransfers` (lines 273–276): empty on parse failure,
else the watched credit entries. -/
def extractWatchedTransfers (watch : List String)
    (parsed : Option (List ParsedTransfer)) : List ParsedTransfer :=
  match parsed with
  | none => []
  | some ts => ts.filter (fun t => t.isWatched watch && t.isCredit)

/-- One entry of the resolved transfer list the Mirror Node attaches to
a transaction (`tx.transfers`). -/
structure MirrorTransfer where
  account : String
  amount : Int
deriving DecidableEq, Repr

/-- A transaction row of the Mirror Node list endpoint, as consumed by
`poll`/`processTransaction`. -/
structure MirrorTx where
  transaction_id : String
  consensus_timestamp : Nat
  transfers : List MirrorTransfer
  memo : Option String
deriving DecidableEq, Repr

/-- A match record (`entityMatches` / `txBodyMatches` entries of
`processTransaction`; the presentation-only `label` field is omitted). -/
structure MatchRec where
  evmAddress : String
  amount : Int
  entityId : Option String
  resolvedEntityId : Option String
  source : String
deriving DecidableEq, Repr

/-- The event object handed to `onTransferReceived` (lines 565–578,
minus string formatting of the amount). -/
structure TransferEvent where
  evmAddress : String
  amount : Int
  transactionId : String
  consensusTimestamp : Nat
  resolvedEntityId : Option String
  senderUsedEvmAddress : Bool
  detectionMethod : String
  memo : Option String
deriving DecidableEq, Repr

/-- `checkTransfersForWatchedEntityIds` (lines 422–439): one match per
resolved transfer whose account has a reverse binding in the cache and
whose amount is positive. -/
def checkTransfersForWatchedEntityIds (st : MonitorState)
    (transfers : List MirrorTransfer) : List MatchRec :=
  transfers.filterMap (fun transfer =>
    match st.entityToEvmCache.lookup transfer.account with
    | some evmAddress =>
      if (0 : Int) < transfer.amount then
        some { evmAddress := evmAddress
               amount := transfer.amount
               entityId := some transfer.account
               resolvedEntityId := none
               source := "entity_cache" }
      else none
    | none => none)

/-- The literal fee/system account exclusion list of line 503 (the first
entry contains a space, verbatim from the source). -/
def feeAccounts : List String := ["0. 0.98", "0.0.800", "0.0.801"]

/-- Result of `fetchTransactionDetails` + SDK parse for one transaction
id: a thrown fetch error, or no usable body, or the parsed transfers. -/
def DetailsOracle : Type := String → Except Unit (Option (List ParsedTransfer))

/-- The body of the loop over `watchedEvmTransfers` (lines 483–532):
skip aliases already matched through the entity cache, else scan the
resolved transfer list for the lazily created account (positive amount,
unknown to the cache, not a fee account, amount equal to the parsed
credit) and bind it on success. -/
def resolveWatchedTransfer (entityMatches : List MatchRec) (tx : MirrorTx)
    (acc : MonitorState × List MatchRec) (evt : ParsedTransfer) :
    MonitorState × List MatchRec :=
  let (stc, ms) := acc
  match evt.dest with
  | .evmAddress addr =>
    let alreadyFound := entityMatches.any (fun m =>
      normalizeEvmAddress m.evmAddress == normalizeEvmAddress addr)
    if alreadyFound then (stc, ms)
    else
      match tx.transfers.find? (fun mt =>
          decide (0 < mt.amount)
          && (stc.entityToEvmCache.lookup mt.account).isNone
          && !(feeAccounts.contains mt.account)
          && mt.amount == evt.amountTinybar) with
      | some mt =>
        (updateCache stc addr mt.account,
         ms ++ [{ evmAddress := addr
                  amount := evt.amountTinybar
                  entityId := none
                  resolvedEntityId := some mt.account
                  source := "tx_body_parse" }])
      | none =>
        (stc, ms ++ [{ evmAddress := addr
                       amount := evt.amountTinybar
                       entityId := none
                       resolvedEntityId := none
                       source := "tx_body_parse" }])
  | _ => (stc, ms)

/-- `usedEvmForThis` (lines 554–563): the parsed body contains an
EVM-address credit for the same normalized address. -/
def usedEvmFor (parsedTransfers : Option (List ParsedTransfer))
    (evmAddress : String) : Bool :=
  match parsedTransfers with
  | none => false
  | some pts => pts.any (fun t =>
      match t.dest with
      | .evmAddress a =>
        normalizeEvmAddress a == normalizeEvmAddress evmAddress && t.isCredit
      | _ => false)

/-- `processTransaction` (lines 445–580): seen-set gate and trim, cache
matches, detail fetch (errors caught and logged), body matches with
inline binding resolution, then event emission for the combined match
list.  Stats counters are presentation-only and omitted. -/
def processTransaction (watch : List String) (details : DetailsOracle)
    (st : MonitorState) (tx : MirrorTx) : MonitorState × List TransferEvent :=
  let txId := tx.transaction_id
  if txId ∈ st.processedTxIds then (st, [])
  else
    let seen := st.processedTxIds ++ [txId]
    let seen := if 10000 < seen.length then seen.drop (seen.length - 5000) else seen
    let st1 := { st with processedTxIds := seen }
    let entityMatches := checkTransfersForWatchedEntityIds st1 tx.transfers
    let resolved :
        MonitorState × List MatchRec × Option (List ParsedTransfer) :=
      match details txId with
      | .error _ => (st1, [], none)
      | .ok none => (st1, [], none)
      | .ok (some pts) =>
        let watchedEvmTransfers := extractWatchedTransfers watch (some pts)
        let folded :=
          watchedEvmTransfers.foldl (resolveWatchedTransfer entityMatches tx) (st1, [])
        (folded.1, folded.2, some pts)
    let st2 := resolved.1
    let txBodyMatches := resolved.2.1
    let parsedTransfers := resolved.2.2
    let allMatches := entityMatches ++ txBodyMatches
    if allMatches.isEmpty then (st2, [])
    else
      (st2, allMatches.map (fun m =>
        { evmAddress := m.evmAddress
          amount := m.amount
          transactionId := txId
          consensusTimestamp := tx.consensus_timestamp
          resolvedEntityId := m.resolvedEntityId.orElse (fun _ => m.entityId)
          senderUsedEvmAddress := usedEvmFor parsedTransfers m.evmAddress
          detectionMethod := m.source
          memo := tx.memo }))

/-! ## Poll cycles and the run trace

`poll` (lines 582–607) fetches a batch and, per transaction, processes
it and then advances `lastTimestamp` to its consensus timestamp;
fetch errors go to `onError` and leave the state untouched.  The trace
additionally logs, per processed transaction, its id, marker and the
events it emitted — a ghost observation used to state the dedup and
watermark claims. -/

/-- Ghost log entry: one `processTransaction` call inside `poll`. -/
structure LogEntry where
  txId : String
  marker : Nat
  events : List TransferEvent
deriving DecidableEq, Repr

/-- One loop iteration of `poll` (lines 599–602). -/
def stepTx (watch : List String) (details : DetailsOracle)
    (acc : MonitorState × List LogEntry) (tx : MirrorTx) :
    MonitorState × List LogEntry :=
  let (st, log) := acc
  let (st', evs) := processTransaction watch details st tx
  ({ st' with lastTimestamp := some tx.consensus_timestamp },
   log ++ [{ txId := tx.transaction_id, marker := tx.consensus_timestamp, events := evs }])

/-- One `poll` cycle over a fetch result (lines 582–607). -/
def pollStep (watch : List String) (details : DetailsOracle)
    (acc : MonitorState × List LogEntry) :
    Except Unit (List MirrorTx) → MonitorState × List LogEntry
  | .error _ => acc
  | .ok txs => txs.foldl (stepTx watch details) acc

/-- The process lifetime: a sequence of poll cycles, each given its
fetch result. -/
def runTrace (watch : List String) (details : DetailsOracle)
    (st0 : MonitorState) (cycles : List (Except Unit (List MirrorTx))) :
    MonitorState × List LogEntry :=
  cycles.foldl (pollStep watch details) (st0, [])

/-! ## The fetch contract

`fetchTransactions` (lines 282–304) asks the Mirror Node for
transactions with `timestamp gt:<watermark>`, `order=asc` and
`limit=100`; the db query uses `consensus_timestamp > $1 ORDER BY
consensus_timestamp ASC LIMIT <batch>`.  A batch is valid for a
watermark when it honours that contract. -/

/-- `gt:` lower bound (no bound while `lastTimestamp` is unset). -/
def afterWm (wm : Option Nat) (marker : Nat) : Bool :=
  match wm with
  | none => true
  | some w0 => decide (w0 < marker)

/-- The fetch contract for one batch. -/
def validBatch (wm : Option Nat) (txs : List MirrorTx) : Bool :=
  txs.all (fun tx => afterWm wm tx.consensus_timestamp)
  && decide (List.Pairwise
      (fun a b => a.consensus_timestamp ≤ b.consensus_timestamp) txs)
  && decide (txs.length ≤ 100)

/-- Every batch of the run honours the fetch contract at the watermark
the scanner holds when it issues that fetch. -/
def validRun (watch : List String) (details : DetailsOracle)
    (st : MonitorState) : List (Except Unit (List MirrorTx)) → Bool
  | [] => true
  | c :: cs =>
    (match c with
     | .error _ => true
     | .ok txs => validBatch st.lastTimestamp txs)
    && validRun watch details (pollStep watch details (st, []) c).1 cs

/-- All transactions delivered over the run. -/
def runTxs (cycles : List (Except Unit (List MirrorTx))) : List MirrorTx :=
  cycles.flatMap (fun c => match c with | .error _ => [] | .ok txs => txs)

/-- A transaction identifier names one transaction: two deliveries with
the same id carry the same position marker. -/
def idDeterminesMarker (txs : List MirrorTx) : Prop :=
  ∀ t1 ∈ txs, ∀ t2 ∈ txs, t1.transaction_id = t2.transaction_id →
    t1.consensus_timestamp = t2.consensus_timestamp

instance (txs : List MirrorTx) : Decidable (idDeterminesMarker txs) := by
  unfold idDeterminesMarker; infer_instance

/-- The seen-set after the add-and-trim step of `processTransaction`
(lines 451–458). -/
def trimSeen (l : List String) : List String :=
  if 10000 < l.length then l.drop (l.length - 5000) else l

/-- `MonitorState` after the seen-set update of `processTransaction`. -/
def seenUpdated (st : MonitorState) (txId : String) : MonitorState :=
  { st with processedTxIds := trimSeen (st.processedTxIds ++ [txId]) }

/-- The events one row contributes to a `pollOnce` cycle. -/
def dbRowEvents (watch : List String) (row : DbRow) : List DbEvent :=
  if row.transaction_bytes.nonEmptyBytes = false then []
  else
    match parseTransactionBytes row.transaction_bytes with
    | none => []
    | some body => dbMatchCrypto watch row body

/-! ## Trace invariants (verification infrastructure)

The defining observations about a run: the watermark prescribed by a
trace, the ordering on optional watermarks, and the count of trace
entries tying the current watermark.
-/

/-- The watermark a trace prescribes: the marker of the last processed
transaction, or the initial watermark while nothing was processed. -/
def wmOf (wm0 : Option Nat) (log : List LogEntry) : Option Nat :=
  match log.getLast? with
  | some e => some e.marker
  | none => wm0

/-- Order on optional watermarks (`none` = cursor not yet set). -/
def wmLe : Option Nat → Option Nat → Prop
  | none, _ => True
  | some _, none => False
  | some a, some b => a ≤ b

instance (a b : Option Nat) : Decidable (wmLe a b) :=
  match a, b with
  | none, _ => isTrue trivial
  | some _, none => isFalse (fun h => h)
  | some x, some y => inferInstanceAs (Decidable (x ≤ y))

/-- Number of trace entries whose marker ties the given watermark. -/
def tiedCount (wm : Option Nat) (log : List LogEntry) : Nat :=
  (log.filter (fun e => decide (some e.marker = wm))).length

/-- Ordering invariant of the scanner: processed markers appear in
non-decreasing order and the watermark is the last processed marker. -/
def LightInv (wm0 : Option Nat) (acc : MonitorState × List LogEntry) : Prop :=
  ((acc.2.map LogEntry.marker).Pairwise (· ≤ ·)) ∧
  acc.1.lastTimestamp = wmOf wm0 acc.2

/-- The last `k` elements of a list — the suffix of the seen-set a trim
keeps is `lastN 5000`. -/
def lastN {α : Type} (k : Nat) (l : List α) : List α :=
  l.drop (l.length - k)

/-- The identifiers of the trace entries that emitted at least one
event. -/
def emitters (log : List LogEntry) : List String :=
  (log.filter (fun e => !e.events.isEmpty)).map LogEntry.txId

/-- The full invariant of the exactly-once argument, over a pool of
deliverable transactions: the ordering invariant, every seen id was
logged, every logged (id, marker) pair names a pool transaction, no id
emits twice, and every entry tying the watermark sits in the retained
tail of the seen-set. -/
def CoreInv (wmInit : Option Nat) (pool : List MirrorTx)
    (acc : MonitorState × List LogEntry) : Prop :=
  LightInv wmInit acc ∧
  (∀ i ∈ acc.1.processedTxIds, ∃ e ∈ acc.2, e.txId = i) ∧
  (∀ e ∈ acc.2, ∃ tx ∈ pool,
    e.txId = tx.transaction_id ∧ e.marker = tx.consensus_timestamp) ∧
  (emitters acc.2).Nodup ∧
  (∀ e ∈ acc.2, some e.marker = acc.1.lastTimestamp →
    e.txId ∈ lastN (tiedCount acc.1.lastTimestamp acc.2) acc.1.processedTxIds)

/-! ## Concrete example values

Used by counterexamples and witnesses: the watchlist of the shipped
configuration, a transaction crediting the watched raw alias, and
malformed envelopes.
-/

/-- The configured watchlist (`CONFIG.watchedEvmAddresses`). -/
def exWatch : List String := ["8f31e9fa14266c5da7f63bfc96811e08b7c09183"]

/-- Parsed body of a transfer crediting the watched alias with
1000000 tinybar (the alias spelled as a sender would: `0x` and mixed
case). -/
def exParsedTransfers : List ParsedTransfer :=
  [{ dest := .evmAddress "0x8F31E9FA14266C5DA7F63BFC96811E08B7C09183",
     amountTinybar := 1000000 }]

/-- Detail oracle returning that body for every id. -/
def exDetails : DetailsOracle := fun _ => .ok (some exParsedTransfers)

/-- Fresh monitor state. -/
def exState0 : MonitorState :=
  { lastTimestamp := none, processedTxIds := [],
    evmToEntityCache := [], entityToEvmCache := [] }

/-- The Mirror Node row for that transfer: sender debit plus the lazily
created account's credit. -/
def exTxLazy : MirrorTx :=
  { transaction_id := "0.0.5-1700000000-000000001"
    consensus_timestamp := 10
    transfers := [{ account := "0.0.5", amount := -1000000 },
                  { account := "0.0.900", amount := 1000000 }]
    memo := none }

/-- Parsed body of a transfer addressed by entity id. -/
def exParsedEntityBody : List ParsedTransfer :=
  [{ dest := .entityId "0.0.700", amountTinybar := 555 }]

/-- Detail oracle returning the entity-id body for every id. -/
def exDetailsEntity : DetailsOracle := fun _ => .ok (some exParsedEntityBody)

/-- Mirror row of the entity-id transfer. -/
def exTxEntity : MirrorTx :=
  { transaction_id := "0.0.5-1700000000-000000777"
    consensus_timestamp := 30
    transfers := [{ account := "0.0.700", amount := 555 }]
    memo := none }

/-- A state whose reconciler binds the watched alias to `0.0.700`. -/
def exStateEntity : MonitorState :=
  { lastTimestamp := none, processedTxIds := [],
    evmToEntityCache := [("8f31e9fa14266c5da7f63bfc96811e08b7c09183", "0.0.700")],
    entityToEvmCache := [("0.0.700", "8f31e9fa14266c5da7f63bfc96811e08b7c09183")] }

/-- A state holding the binding `aabb ↦ 0.0.42`. -/
def exStateBind : MonitorState :=
  { lastTimestamp := none, processedTxIds := [],
    evmToEntityCache := [("aabb", "0.0.42")],
    entityToEvmCache := [("0.0.42", "aabb")] }

/-- A state already holding a binding for the watched alias. -/
def exStateBound : MonitorState :=
  { lastTimestamp := none, processedTxIds := [],
    evmToEntityCache := [("8f31e9fa14266c5da7f63bfc96811e08b7c09183", "0.0.111")],
    entityToEvmCache := [("0.0.111", "8f31e9fa14266c5da7f63bfc96811e08b7c09183")] }

/-- Envelope malformed at the `SignedTransaction` layer. -/
def exPtBadSigned : PTransaction :=
  { signedTransactionBytes := .bad, signedTransaction := .null,
    transactionBytes := .null, transaction_bytes := .null,
    bodyBytes := .null, body := none }

/-- Envelope malformed at the innermost `TransactionBody` layer. -/
def exPtBadBody : PTransaction :=
  { signedTransactionBytes := .ok { bodyBytes := .bad, body := .null }
    signedTransaction := .null, transactionBytes := .null,
    transaction_bytes := .null, bodyBytes := .null, body := none }

/-- The 20-byte alias of the watched address. -/
def exAliasBytes : List Nat :=
  [0x8f, 0x31, 0xe9, 0xfa, 0x14, 0x26, 0x6c, 0x5d, 0xa7, 0xf6,
   0x3b, 0xfc, 0x96, 0x81, 0x1e, 0x08, 0xb7, 0xc0, 0x91, 0x83]

/-- A decoded body with the single watched-alias credit (memo `"m"`). -/
def exEntityBodySingleton : TxBody :=
  { cryptoTransfer := some { transfers := some { accountAmounts :=
      [{ accountID := some { aliasBytes := some exAliasBytes, accountNum := none },
         accountId := none, account := none, amount := 1000000 }] } }
    ethereumTransaction := none
    memo := "m" }

/-- A well-formed decoded body crediting that alias. -/
def exBodyOk : TxBody :=
  { cryptoTransfer := some { transfers := some { accountAmounts :=
      [{ accountID := some { aliasBytes := some exAliasBytes, accountNum := none },
         accountId := none, account := none, amount := 1000000 },
       { accountID := some { aliasBytes := none, accountNum := some 5 },
         accountId := none, account := none, amount := -1000000 }] } }
    ethereumTransaction := none
    memo := "Test transfer to monitored EVM address" }

/-- A well-formed envelope for that body. -/
def exPtOk : PTransaction :=
  { signedTransactionBytes := .ok { bodyBytes := .ok exBodyOk, body := .null }
    signedTransaction := .null, transactionBytes := .null,
    transaction_bytes := .null, bodyBytes := .null, body := none }

/-- A db row carrying the well-formed envelope. -/
def exRowOk : DbRow :=
  { consensus_timestamp := 20, transaction_bytes := .ok exPtOk,
    transaction_hash := "cafe01" }

/-- A db row whose bytes are malformed at the outermost layer. -/
def exRowBad : DbRow :=
  { consensus_timestamp := 15, transaction_bytes := .bad,
    transaction_hash := "dead02" }

/-- Credit/debit list of the spec's decoding example: a raw-alias credit
of +100, an entity-id credit of +50 and an entity-id debit of −150. -/
def exEntryA : AccountAmount :=
  { accountID := some { aliasBytes := some exAliasBytes, accountNum := none },
    accountId := none, account := none, amount := 100 }

/-- The +50 entity-id credit of the example list. -/
def exEntryB : AccountAmount :=
  { accountID := some { aliasBytes := none, accountNum := some 7 },
    accountId := none, account := none, amount := 50 }

/-- The −150 entity-id debit of the example list. -/
def exEntryC : AccountAmount :=
  { accountID := some { aliasBytes := none, accountNum := some 9 },
    accountId := none, account := none, amount := -150 }

/-- The example credit/debit list `[(addrA, +100), (idB, +50), (idC, −150)]`. -/
def exCreditList : List AccountAmount := [exEntryA, exEntryB, exEntryC]

/-- The event the db matcher emits for `exRowOk`. -/
def exDbEvent : DbEvent :=
  { evmAddress := "8f31e9fa14266c5da7f63bfc96811e08b7c09183"
    amountTinybar := 1000000
    transactionHash := "cafe01"
    consensusTimestamp := 20
    senderUsedEvmAddress := true
    memo := some "Test transfer to monitored EVM address" }

/-- The event `processTransaction` emits for `exTxLazy` from a fresh
state. -/
def exTransferEvent : TransferEvent :=
  { evmAddress := "0x8F31E9FA14266C5DA7F63BFC96811E08B7C09183"
    amount := 1000000
    transactionId := "0.0.5-1700000000-000000001"
    consensusTimestamp := 10
    resolvedEntityId := some "0.0.900"
    senderUsedEvmAddress := true
    detectionMethod := "tx_body_parse"
    memo := none }

/-- Detail oracle whose per-transaction fetch always throws. -/
def exDetailsErr : DetailsOracle := fun _ => .error ()

/-- A later, distinct transaction at the next position marker. -/
def exTxLater : MirrorTx :=
  { transaction_id := "0.0.5-1700000000-000000002"
    consensus_timestamp := 11
    transfers := [{ account := "0.0.5", amount := -7 },
                  { account := "0.0.901", amount := 7 }]
    memo := none }

/-- A run of one cycle whose fetched page repeats the same transaction
identifier (simulated page overlap). -/
def exCycleDup : List (Except Unit (List MirrorTx)) := [.ok [exTxLazy, exTxLazy]]

/-- The event built for one match record (lines 565–578), as a named
function of the transaction and the parsed transfer list. -/
def eventOf (tx : MirrorTx) (parsedTransfers : Option (List ParsedTransfer))
    (m : MatchRec) : TransferEvent :=
  { evmAddress := m.evmAddress
    amount := m.amount
    transactionId := tx.transaction_id
    consensusTimestamp := tx.consensus_timestamp
    resolvedEntityId := m.resolvedEntityId.orElse (fun _ => m.entityId)
    senderUsedEvmAddress := usedEvmFor parsedTransfers m.evmAddress
    detectionMethod := m.source
    memo := tx.memo }

/-! ## Generic list lemmas -/

theorem lookup_append {α β : Type} [BEq α] (l l' : List (α × β)) (k : α) :
    (l ++ l').lookup k =
      match l.lookup k with
      | some v => some v
      | none => l'.lookup k := by
  induction l with
  | nil => simp [List.lookup]
  | cons p t ih =>
    by_cases h : k == p.1
    · simp [List.lookup, h]
    · simp only [List.cons_append, List.lookup, h]
      exact ih

theorem lookup_append_of_some {α β : Type} [BEq α] (l l' : List (α × β)) (k : α) (v : β)
    (h : l.lookup k = some v) : (l ++ l').lookup k = some v := by
  rw [lookup_append, h]

/-- First projection of a branch-independent pair. -/
theorem fst_ite_pair {α β : Type} (c : Prop) [Decidable c] (a : α) (x y : β) :
    (if c then (a, x) else (a, y)).1 = a := by
  split <;> rfl

/-! ## Identity cache lemmas (shared across the claims) -/

theorem updateCache_lookup_of_some (st : MonitorState) (b id2 k v : String)
    (h : st.evmToEntityCache.lookup k = some v) :
    (updateCache st b id2).evmToEntityCache.lookup k = some v := by
  unfold updateCache
  by_cases hb : (st.evmToEntityCache.lookup (normalizeEvmAddress b)).isSome
  · simp [hb, h]
  · simp only [hb, if_false]
    exact lookup_append_of_some _ _ _ _ h

theorem updateCache_reverse_of_some (st : MonitorState) (b id2 k v : String)
    (h : st.entityToEvmCache.lookup k = some v) :
    (updateCache st b id2).entityToEvmCache.lookup k = some v := by
  unfold updateCache
  by_cases hb : (st.evmToEntityCache.lookup (normalizeEvmAddress b)).isSome
  · simp [hb, h]
  · simp only [hb, if_false]
    exact lookup_append_of_some _ _ _ _ h

theorem updateCache_processedTxIds (st : MonitorState) (b id2 : String) :
    (updateCache st b id2).processedTxIds = st.processedTxIds := by
  unfold updateCache
  by_cases hb : (st.evmToEntityCache.lookup (normalizeEvmAddress b)).isSome <;> simp [hb]

theorem updateCache_lastTimestamp (st : MonitorState) (b id2 : String) :
    (updateCache st b id2).lastTimestamp = st.lastTimestamp := by
  unfold updateCache
  by_cases hb : (st.evmToEntityCache.lookup (normalizeEvmAddress b)).isSome <;> simp [hb]

/-- The state component of one `resolveWatchedTransfer` step is either
untouched or a single `updateCache` call on it. -/
theorem resolveWatchedTransfer_fst (em : List MatchRec) (tx : MirrorTx)
    (acc : MonitorState × List MatchRec) (p : ParsedTransfer) :
    (resolveWatchedTransfer em tx acc p).1 = acc.1 ∨
    ∃ b id2, (resolveWatchedTransfer em tx acc p).1 = updateCache acc.1 b id2 := by
  rcases acc with ⟨st, ms⟩
  unfold resolveWatchedTransfer
  rcases p.dest with a | kk | e
  · dsimp only
    split
    · left; rfl
    · split
      · next mt _ => right; exact ⟨a, mt.account, rfl⟩
      · left; rfl
  · left; rfl
  · left; rfl

/-- Transfer of a state invariant through the `watchedEvmTransfers`
fold: any property preserved by `updateCache` is preserved by the
whole resolution loop. -/
theorem resolveFold_invariant (P : MonitorState → Prop)
    (hP : ∀ st b id2, P st → P (updateCache st b id2))
    (em : List MatchRec) (tx : MirrorTx) (pts : List ParsedTransfer)
    (st : MonitorState) (ms : List MatchRec) (h : P st) :
    P ((pts.foldl (resolveWatchedTransfer em tx) (st, ms)).1) := by
  induction pts generalizing st ms with
  | nil => exact h
  | cons p rest ih =>
    simp only [List.foldl_cons]
    rcases hsplit : resolveWatchedTransfer em tx (st, ms) p with ⟨st2, ms2⟩
    have h2 : P st2 := by
      rcases resolveWatchedTransfer_fst em tx (st, ms) p with heq | ⟨b, id2, heq⟩
      · rw [hsplit] at heq; simp only at heq; rw [heq]; exact h
      · rw [hsplit] at heq; simp only at heq; rw [heq]; exact hP st b id2 h
    exact ih st2 ms2 h2

/-! ## Structural lemmas for `processTransaction` -/

/-- Structural characterization of the state returned by
`processTransaction`: the skip path returns the state unchanged, the
processing path updates the seen-set and then runs the resolution fold
(which touches only the caches). -/
theorem processTransaction_fst (watch : List String) (details : DetailsOracle)
    (st : MonitorState) (tx : MirrorTx) :
    (processTransaction watch details st tx).1 =
      if tx.transaction_id ∈ st.processedTxIds then st
      else
        match details tx.transaction_id with
        | .error _ => seenUpdated st tx.transaction_id
        | .ok none => seenUpdated st tx.transaction_id
        | .ok (some pts) =>
          ((extractWatchedTransfers watch (some pts)).foldl
            (resolveWatchedTransfer
              (checkTransfersForWatchedEntityIds (seenUpdated st tx.transaction_id)
                tx.transfers) tx)
            (seenUpdated st tx.transaction_id, [])).1 := by
  unfold processTransaction seenUpdated trimSeen
  by_cases hseen : tx.transaction_id ∈ st.processedTxIds
  · simp [hseen]
  · simp only [hseen, if_false]
    rcases hd : details tx.transaction_id with e | o
    · simp only [hd]; exact fst_ite_pair _ _ _ _
    · rcases o with _ | pts
      · simp only [hd]; exact fst_ite_pair _ _ _ _
      · simp only [hd]; exact fst_ite_pair _ _ _ _

/-- `processTransaction` never touches the watermark. -/
theorem processTransaction_lastTimestamp (watch : List String) (details : DetailsOracle)
    (st : MonitorState) (tx : MirrorTx) :
    (processTransaction watch details st tx).1.lastTimestamp = st.lastTimestamp := by
  rw [processTransaction_fst]
  by_cases hseen : tx.transaction_id ∈ st.processedTxIds
  · simp [hseen]
  · simp only [hseen, if_false]
    rcases details tx.transaction_id with e | o
    · rfl
    · rcases o with _ | pts
      · rfl
      · exact resolveFold_invariant (fun s => s.lastTimestamp = st.lastTimestamp)
          (fun s b id2 h => (updateCache_lastTimestamp s b id2).trans h) _ _ _ _ _ rfl

/-- `processTransaction` on the seen-set: unchanged on the skip path,
appended and trimmed on the processing path. -/
theorem processTransaction_seen (watch : List String) (details : DetailsOracle)
    (st : MonitorState) (tx : MirrorTx) :
    (processTransaction watch details st tx).1.processedTxIds =
      if tx.transaction_id ∈ st.processedTxIds then st.processedTxIds
      else trimSeen (st.processedTxIds ++ [tx.transaction_id]) := by
  rw [processTransaction_fst]
  by_cases hseen : tx.transaction_id ∈ st.processedTxIds
  · simp [hseen]
  · simp only [hseen, if_false]
    rcases details tx.transaction_id with e | o
    · rfl
    · rcases o with _ | pts
      · rfl
      · exact resolveFold_invariant
          (fun s => s.processedTxIds = trimSeen (st.processedTxIds ++ [tx.transaction_id]))
          (fun s b id2 h => (updateCache_processedTxIds s b id2).trans h) _ _ _ _ _ rfl

/-- `processTransaction` preserves existing forward bindings. -/
theorem processTransaction_lookup_of_some (watch : List String) (details : DetailsOracle)
    (st : MonitorState) (tx : MirrorTx) (k v : String)
    (h : st.evmToEntityCache.lookup k = some v) :
    (processTransaction watch details st tx).1.evmToEntityCache.lookup k = some v := by
  rw [processTransaction_fst]
  by_cases hseen : tx.transaction_id ∈ st.processedTxIds
  · simp [hseen, h]
  · simp only [hseen, if_false]
    rcases details tx.transaction_id with e | o
    · exact h
    · rcases o with _ | pts
      · exact h
      · exact resolveFold_invariant (fun s => s.evmToEntityCache.lookup k = some v)
          (fun s b id2 hh => updateCache_lookup_of_some s b id2 k v hh) _ _ _ _ _ h

/-- `processTransaction` preserves existing reverse bindings. -/
theorem processTransaction_reverse_of_some (watch : List String) (details : DetailsOracle)
    (st : MonitorState) (tx : MirrorTx) (k v : String)
    (h : st.entityToEvmCache.lookup k = some v) :
    (processTransaction watch details st tx).1.entityToEvmCache.lookup k = some v := by
  rw [processTransaction_fst]
  by_cases hseen : tx.transaction_id ∈ st.processedTxIds
  · simp [hseen, h]
  · simp only [hseen, if_false]
    rcases details tx.transaction_id with e | o
    · exact h
    · rcases o with _ | pts
      · exact h
      · exact resolveFold_invariant (fun s => s.entityToEvmCache.lookup k = some v)
          (fun s b id2 hh => updateCache_reverse_of_some s b id2 k v hh) _ _ _ _ _ h

/-- Events are only emitted on the processing path. -/
theorem processTransaction_emits (watch : List String) (details : DetailsOracle)
    (st : MonitorState) (tx : MirrorTx)
    (h : (processTransaction watch details st tx).2 ≠ []) :
    tx.transaction_id ∉ st.processedTxIds := by
  intro hseen
  apply h
  unfold processTransaction
  simp [hseen]

/-! ## Helper lemmas for the normalizer claims -/

theorem hexDigit_toLower : ∀ n < 16, (hexDigit n).toLower = hexDigit n := by decide

theorem hexDigit_ne_x : ∀ n < 16, hexDigit n ≠ 'x' := by decide

theorem lowerStr_hexOfBytes (bs : List Nat) :
    lowerStr (hexOfBytes bs) = hexOfBytes bs := by
  unfold lowerStr hexOfBytes
  congr 1
  induction bs with
  | nil => rfl
  | cons b rest ih =>
    simp only [List.flatMap_cons, List.map_append, ih]
    congr 1
    simp only [List.map_cons, List.map_nil]
    rw [hexDigit_toLower _ (by omega), hexDigit_toLower _ (by omega)]

theorem hexOfBytes_length (bs : List Nat) :
    (hexOfBytes bs).length = 2 * bs.length := by
  unfold hexOfBytes
  induction bs with
  | nil => rfl
  | cons b rest ih =>
    simp only [List.flatMap_cons, String.length_mk, List.length_append] at *
    simp [ih]
    omega

theorem remove0xLead_of_ne (c1 c2 : Char) (r : List Char) (h : c2 ≠ 'x') :
    remove0xLead (c1 :: c2 :: r) = c1 :: c2 :: r := by
  unfold remove0xLead
  split
  · next heq => rw [List.cons_eq_cons] at heq; exact absurd heq.2 (by simp [h])
  · rfl

/-- The hex rendering of a byte sequence never carries the `0x` marker:
its second character is a hex digit. -/
theorem remove0xLead_hexOfBytes (b : Nat) (rest : List Nat) :
    remove0xLead (hexOfBytes (b :: rest)).data = (hexOfBytes (b :: rest)).data := by
  unfold hexOfBytes
  simp only [List.flatMap_cons, List.cons_append]
  exact remove0xLead_of_ne _ _ _ (hexDigit_ne_x _ (Nat.mod_lt _ (by omega)))

/-! ## Helper lemmas for the db poll cycle -/

theorem dbPollOnce_fold_snd (watch : List String) (rows : List DbRow)
    (ts : Nat) (evs : List DbEvent) :
    (rows.foldl (dbRowStep watch) (ts, evs)).2 =
      evs ++ rows.flatMap (dbRowEvents watch) := by
  induction rows generalizing ts evs with
  | nil => simp
  | cons row rest ih =>
    simp only [List.foldl_cons, List.flatMap_cons]
    rcases hne : row.transaction_bytes.nonEmptyBytes with _ | _
    · simp [dbRowStep, dbRowEvents, hne, ih]
    · rcases hp : parseTransactionBytes row.transaction_bytes with _ | body
      · simp [dbRowStep, dbRowEvents, hne, hp, ih]
      · simp [dbRowStep, dbRowEvents, hne, hp, ih]

/-- Event decomposition of a successful `pollOnce` cycle: one event
block per row, in row order. -/
theorem dbPollOnce_snd (watch : List String) (ts : Nat) (rows : List DbRow) :
    (dbPollOnce watch ts (.ok rows)).2 = rows.flatMap (dbRowEvents watch) := by
  unfold dbPollOnce
  exact dbPollOnce_fold_snd watch rows ts []

/-! ## Helper lemma for repeated cache updates -/

theorem foldUpdate_lookup_of_some (ops : List (String × String)) (st : MonitorState)
    (k v : String) (h : st.evmToEntityCache.lookup k = some v) :
    ((ops.foldl (fun s p => updateCache s p.1 p.2) st).evmToEntityCache.lookup k) = some v := by
  induction ops generalizing st with
  | nil => exact h
  | cons p rest ih =>
    simp only [List.foldl_cons]
    exact ih _ (updateCache_lookup_of_some st p.1 p.2 k v h)

/-! ## Amount lemmas for the matchers -/

theorem snd_ite_pair {α β : Type} (c : Prop) [Decidable c] (a b : α) (x y : β) :
    (if c then (a, x) else (b, y)).2 = if c then x else y := by
  split <;> rfl

theorem mem_ite_nil {α : Type} (c : Prop) [Decidable c] (l : List α) (x : α)
    (h : x ∈ (if c then ([] : List α) else l)) : x ∈ l := by
  by_cases hc : c
  · rw [if_pos hc] at h; exact absurd h (List.not_mem_nil x)
  · rw [if_neg hc] at h; exact h

theorem checkTransfers_amount_pos (st : MonitorState) (ts : List MirrorTransfer) :
    ∀ m ∈ checkTransfersForWatchedEntityIds st ts, 0 < m.amount := by
  intro m hm
  unfold checkTransfersForWatchedEntityIds at hm
  rw [List.mem_filterMap] at hm
  rcases hm with ⟨tr, _, hsome⟩
  rcases hlook : st.entityToEvmCache.lookup tr.account with _ | evm <;>
    rw [hlook] at hsome <;> dsimp only at hsome
  · simp at hsome
  · by_cases hpos : (0 : Int) < tr.amount
    · rw [if_pos hpos] at hsome
      injection hsome with h
      subst h
      exact hpos
    · rw [if_neg hpos] at hsome
      simp at hsome

theorem checkTransfers_source (st : MonitorState) (ts : List MirrorTransfer) :
    ∀ m ∈ checkTransfersForWatchedEntityIds st ts, m.source = "entity_cache" := by
  intro m hm
  unfold checkTransfersForWatchedEntityIds at hm
  rw [List.mem_filterMap] at hm
  rcases hm with ⟨tr, _, hsome⟩
  rcases hlook : st.entityToEvmCache.lookup tr.account with _ | evm <;>
    rw [hlook] at hsome <;> dsimp only at hsome
  · simp at hsome
  · by_cases hpos : (0 : Int) < tr.amount
    · rw [if_pos hpos] at hsome
      injection hsome with h
      subst h
      rfl
    · rw [if_neg hpos] at hsome
      simp at hsome

theorem extractWatched_credit (watch : List String) (pts : List ParsedTransfer) :
    ∀ t ∈ extractWatchedTransfers watch (some pts), 0 < t.amountTinybar := by
  intro t ht
  unfold extractWatchedTransfers at ht
  rw [List.mem_filter] at ht
  have h2 := ht.2
  rw [Bool.and_eq_true] at h2
  have := h2.2
  unfold ParsedTransfer.isCredit at this
  exact of_decide_eq_true this

/-- Each match appended by one resolution step carries the parsed
transfer's amount. -/
theorem resolveWatchedTransfer_snd (em : List MatchRec) (tx : MirrorTx)
    (acc : MonitorState × List MatchRec) (p : ParsedTransfer) :
    ∀ m ∈ (resolveWatchedTransfer em tx acc p).2,
      m ∈ acc.2 ∨ m.amount = p.amountTinybar := by
  rcases acc with ⟨st, ms⟩
  unfold resolveWatchedTransfer
  rcases p.dest with a | kk | e
  · dsimp only
    split
    · intro m hm; exact Or.inl hm
    · split
      · intro m hm
        simp only [List.mem_append, List.mem_singleton] at hm
        rcases hm with h | h
        · exact Or.inl h
        · right; rw [h]
      · intro m hm
        simp only [List.mem_append, List.mem_singleton] at hm
        rcases hm with h | h
        · exact Or.inl h
        · right; rw [h]
  · intro m hm; exact Or.inl hm
  · intro m hm; exact Or.inl hm

theorem resolveFold_snd_amount (em : List MatchRec) (tx : MirrorTx)
    (pts : List ParsedTransfer) (st : MonitorState) (ms : List MatchRec) :
    ∀ m ∈ (pts.foldl (resolveWatchedTransfer em tx) (st, ms)).2,
      m ∈ ms ∨ ∃ evt ∈ pts, m.amount = evt.amountTinybar := by
  induction pts generalizing st ms with
  | nil => intro m hm; exact Or.inl hm
  | cons p rest ih =>
    intro m hm
    simp only [List.foldl_cons] at hm
    rcases hsplit : resolveWatchedTransfer em tx (st, ms) p with ⟨st2, ms2⟩
    rw [hsplit] at hm
    rcases ih st2 ms2 m hm with hin | ⟨evt, hevt, heq⟩
    · have := resolveWatchedTransfer_snd em tx (st, ms) p m (by rw [hsplit]; exact hin)
      rcases this with h1 | h2
      · exact Or.inl h1
      · exact Or.inr ⟨p, List.mem_cons_self p rest, h2⟩
    · exact Or.inr ⟨evt, List.mem_cons_of_mem _ hevt, heq⟩

/-- Every event emitted by `processTransaction` carries a strictly
positive amount. -/
theorem processTransaction_amount_pos (watch : List String) (details : DetailsOracle)
    (st : MonitorState) (tx : MirrorTx) :
    ∀ ev ∈ (processTransaction watch details st tx).2, 0 < ev.amount := by
  intro ev hev
  unfold processTransaction at hev
  by_cases hseen : tx.transaction_id ∈ st.processedTxIds
  · simp [hseen] at hev
  · simp only [hseen, if_false] at hev
    rcases hd : details tx.transaction_id with e | o
    · rw [hd] at hev
      dsimp only at hev
      rw [snd_ite_pair] at hev
      replace hev := mem_ite_nil _ _ _ hev
      rw [List.mem_map] at hev
      rcases hev with ⟨m, hm, rfl⟩
      rw [List.append_nil] at hm
      exact checkTransfers_amount_pos _ _ m hm
    · rcases o with _ | pts <;> rw [hd] at hev <;> dsimp only at hev <;>
        rw [snd_ite_pair] at hev <;> replace hev := mem_ite_nil _ _ _ hev <;>
        rw [List.mem_map] at hev
      · rcases hev with ⟨m, hm, rfl⟩
        rw [List.append_nil] at hm
        exact checkTransfers_amount_pos _ _ m hm
      · rcases hev with ⟨m, hm, rfl⟩
        rw [List.mem_append] at hm
        rcases hm with hm | hm
        · exact checkTransfers_amount_pos _ _ m hm
        · rcases resolveFold_snd_amount _ tx _ _ [] m hm with habs | ⟨evt, hevt, heq⟩
          · simp at habs
          · rw [heq]
            exact extractWatched_credit watch pts evt hevt

/-- Every event emitted by the db crypto-transfer matcher carries a
strictly positive amount. -/
theorem dbMatchCrypto_amount_pos (watch : List String) (row : DbRow) (body : TxBody) :
    ∀ e ∈ dbMatchCrypto watch row body, 0 < e.amountTinybar := by
  intro e he
  unfold dbMatchCrypto at he
  rcases hct : body.cryptoTransfer with _ | ct <;> rw [hct] at he <;> dsimp only at he
  · simp at he
  · rcases htl : ct.transfers with _ | tl <;> rw [htl] at he <;> dsimp only at he
    · simp at he
    · rw [List.mem_filterMap] at he
      rcases he with ⟨aa, _, hsome⟩
      by_cases hpos : (0 : Int) < aa.amount
      · rw [if_pos hpos] at hsome
        rcases hacct : ((aa.accountID.orElse fun _ => aa.accountId).orElse
            fun _ => aa.account) with _ | acct <;> rw [hacct] at hsome <;>
          dsimp only at hsome
        · simp at hsome
        · rcases hal : acct.aliasBytes with _ | al <;> rw [hal] at hsome <;>
            dsimp only at hsome
          · simp at hsome
          · by_cases hlen : al.length = 20
            · rw [if_pos hlen] at hsome
              rcases hn : normalizeEvmAddressDb (some (.str (hexOfBytes al)))
                  with _ | evm <;> rw [hn] at hsome <;> dsimp only at hsome
              · simp at hsome
              · by_cases hw : evm ∈ watch
                · rw [if_pos hw] at hsome
                  injection hsome with h
                  subst h
                  exact hpos
                · rw [if_neg hw] at hsome
                  simp at hsome
            · rw [if_neg hlen] at hsome
              simp at hsome
      · rw [if_neg hpos] at hsome
        simp at hsome

/-! ## Matcher-semantics helper lemmas -/

/-- Textual re-normalization of a hex rendering is the identity. -/
theorem normalizeDb_hexOfBytes (b : Nat) (rest : List Nat) :
    normalizeEvmAddressDb (some (.str (hexOfBytes (b :: rest)))) =
      some (hexOfBytes (b :: rest)) := by
  simp only [normalizeEvmAddressDb]
  have hne : hexOfBytes (b :: rest) ≠ "" := by
    intro hcon
    have := hexOfBytes_length (b :: rest)
    rw [hcon] at this
    simp at this
  rw [if_neg hne, lowerStr_hexOfBytes, remove0xLead_hexOfBytes]

/-- Without reverse bindings for any account of the resolved transfer
list, the entity-cache matcher finds nothing. -/
theorem checkTransfers_eq_nil (st : MonitorState) (ts : List MirrorTransfer)
    (h : ∀ tr ∈ ts, st.entityToEvmCache.lookup tr.account = none) :
    checkTransfersForWatchedEntityIds st ts = [] := by
  unfold checkTransfersForWatchedEntityIds
  rw [List.filterMap_eq_nil_iff]
  intro tr htr
  rw [h tr htr]

/-- Full characterization of a non-skipped `processTransaction` call:
entity-cache matches, the resolution fold over the watched body
transfers, and the emitted events. -/
theorem processTransaction_events (watch : List String) (details : DetailsOracle)
    (st : MonitorState) (tx : MirrorTx)
    (hseen : tx.transaction_id ∉ st.processedTxIds) :
    processTransaction watch details st tx =
      match details tx.transaction_id with
      | .error _ =>
        if (checkTransfersForWatchedEntityIds (seenUpdated st tx.transaction_id)
              tx.transfers ++ ([] : List MatchRec)).isEmpty = true then
          (seenUpdated st tx.transaction_id, [])
        else
          (seenUpdated st tx.transaction_id,
            (checkTransfersForWatchedEntityIds (seenUpdated st tx.transaction_id)
              tx.transfers ++ []).map (eventOf tx none))
      | .ok none =>
        if (checkTransfersForWatchedEntityIds (seenUpdated st tx.transaction_id)
              tx.transfers ++ ([] : List MatchRec)).isEmpty = true then
          (seenUpdated st tx.transaction_id, [])
        else
          (seenUpdated st tx.transaction_id,
            (checkTransfersForWatchedEntityIds (seenUpdated st tx.transaction_id)
              tx.transfers ++ []).map (eventOf tx none))
      | .ok (some pts) =>
        if (checkTransfersForWatchedEntityIds (seenUpdated st tx.transaction_id)
              tx.transfers ++
            ((extractWatchedTransfers watch (some pts)).foldl
              (resolveWatchedTransfer
                (checkTransfersForWatchedEntityIds (seenUpdated st tx.transaction_id)
                  tx.transfers) tx)
              (seenUpdated st tx.transaction_id, [])).2).isEmpty = true then
          (((extractWatchedTransfers watch (some pts)).foldl
              (resolveWatchedTransfer
                (checkTransfersForWatchedEntityIds (seenUpdated st tx.transaction_id)
                  tx.transfers) tx)
              (seenUpdated st tx.transaction_id, [])).1, [])
        else
          (((extractWatchedTransfers watch (some pts)).foldl
              (resolveWatchedTransfer
                (checkTransfersForWatchedEntityIds (seenUpdated st tx.transaction_id)
                  tx.transfers) tx)
              (seenUpdated st tx.transaction_id, [])).1,
            (checkTransfersForWatchedEntityIds (seenUpdated st tx.transaction_id)
                tx.transfers ++
              ((extractWatchedTransfers watch (some pts)).foldl
                (resolveWatchedTransfer
                  (checkTransfersForWatchedEntityIds (seenUpdated st tx.transaction_id)
                    tx.transfers) tx)
                (seenUpdated st tx.transaction_id, [])).2).map (eventOf tx (some pts))) := by
  unfold processTransaction
  rw [if_neg hseen]
  rcases hd : details tx.transaction_id with e | o
  · rfl
  · rcases o with _ | pts
    · rfl
    · rfl

theorem seenUpdated_entityToEvm (st : MonitorState) (i : String) :
    (seenUpdated st i).entityToEvmCache = st.entityToEvmCache := rfl

/-- A watched raw-alias credit with no cache matches emits exactly one
event, flagged as raw-alias usage and carrying the credited quantity. -/
theorem matcher_alias_case (watch : List String) (details : DetailsOracle)
    (st : MonitorState) (tx : MirrorTx) (addr : String) (amt : Int)
    (hseen : tx.transaction_id ∉ st.processedTxIds)
    (hd : details tx.transaction_id =
      .ok (some [{ dest := .evmAddress addr, amountTinybar := amt }]))
    (hpos : 0 < amt)
    (hw : isWatchedAddress watch addr = true)
    (hnone : ∀ tr ∈ tx.transfers, st.entityToEvmCache.lookup tr.account = none) :
    ∃ r, (processTransaction watch details st tx).2 =
      [{ evmAddress := addr, amount := amt, transactionId := tx.transaction_id,
         consensusTimestamp := tx.consensus_timestamp, resolvedEntityId := r,
         senderUsedEvmAddress := true, detectionMethod := "tx_body_parse",
         memo := tx.memo }] := by
  rw [processTransaction_events watch details st tx hseen, hd]
  dsimp only
  rw [checkTransfers_eq_nil (seenUpdated st tx.transaction_id) tx.transfers hnone]
  have hex : extractWatchedTransfers watch
      (some [{ dest := .evmAddress addr, amountTinybar := amt }]) =
      [{ dest := .evmAddress addr, amountTinybar := amt }] := by
    unfold extractWatchedTransfers
    simp [ParsedTransfer.isWatched, ParsedTransfer.isCredit, hw, hpos]
  rw [hex]
  rw [List.foldl_cons, List.foldl_nil]
  unfold resolveWatchedTransfer
  dsimp only
  rcases hfind : tx.transfers.find? (fun mt =>
      decide (0 < mt.amount)
      && ((seenUpdated st tx.transaction_id).entityToEvmCache.lookup mt.account).isNone
      && !feeAccounts.contains mt.account
      && mt.amount == amt) with _ | mt
  · refine ⟨none, ?_⟩
    rw [hfind]
    simp [eventOf, usedEvmFor, ParsedTransfer.isCredit, hpos]
  · refine ⟨some mt.account, ?_⟩
    rw [hfind]
    simp [eventOf, usedEvmFor, ParsedTransfer.isCredit, hpos]

/-- An entity-id transfer whose resolved account has a reverse binding
emits exactly one event, flagged as entity-id usage. -/
theorem matcher_entity_case (watch : List String) (details : DetailsOracle)
    (st : MonitorState) (tx : MirrorTx) (ent acc evm : String) (amt : Int)
    (hseen : tx.transaction_id ∉ st.processedTxIds)
    (hd : details tx.transaction_id =
      .ok (some [{ dest := .entityId ent, amountTinybar := amt }]))
    (htr : tx.transfers = [{ account := acc, amount := amt }])
    (hlook : st.entityToEvmCache.lookup acc = some evm)
    (hpos : 0 < amt) :
    (processTransaction watch details st tx).2 =
      [{ evmAddress := evm, amount := amt, transactionId := tx.transaction_id,
         consensusTimestamp := tx.consensus_timestamp, resolvedEntityId := some acc,
         senderUsedEvmAddress := false, detectionMethod := "entity_cache",
         memo := tx.memo }] := by
  rw [processTransaction_events watch details st tx hseen, hd]
  dsimp only
  rw [htr]
  have hem : checkTransfersForWatchedEntityIds (seenUpdated st tx.transaction_id)
      [{ account := acc, amount := amt }] =
      [{ evmAddress := evm, amount := amt, entityId := some acc,
         resolvedEntityId := none, source := "entity_cache" }] := by
    unfold checkTransfersForWatchedEntityIds
    simp only [List.filterMap_cons, List.filterMap_nil, seenUpdated_entityToEvm]
    rw [hlook]
    dsimp only
    rw [if_pos hpos]
  rw [hem]
  have hex : extractWatchedTransfers watch
      (some [{ dest := .entityId ent, amountTinybar := amt }]) = [] := by
    unfold extractWatchedTransfers
    simp [ParsedTransfer.isWatched]
  rw [hex]
  simp [eventOf, usedEvmFor]

/-- An entity-id transfer with no reverse binding for any resolved
account emits nothing. -/
theorem matcher_unbound_case (watch : List String) (details : DetailsOracle)
    (st : MonitorState) (tx : MirrorTx) (ent : String) (amt : Int)
    (hseen : tx.transaction_id ∉ st.processedTxIds)
    (hd : details tx.transaction_id =
      .ok (some [{ dest := .entityId ent, amountTinybar := amt }]))
    (hnone : ∀ tr ∈ tx.transfers, st.entityToEvmCache.lookup tr.account = none) :
    (processTransaction watch details st tx).2 = [] := by
  rw [processTransaction_events watch details st tx hseen, hd]
  dsimp only
  rw [checkTransfers_eq_nil (seenUpdated st tx.transaction_id) tx.transfers hnone]
  have hex : extractWatchedTransfers watch
      (some [{ dest := .entityId ent, amountTinybar := amt }]) = [] := by
    unfold extractWatchedTransfers
    simp [ParsedTransfer.isWatched]
  rw [hex]
  simp

/-- The db matcher on a 20-byte watched alias credit emits the single
raw-alias event. -/
theorem matcher_db_case (watchD : List String) (row : DbRow) (b : Nat) (rest : List Nat)
    (num : Option Nat) (amtD : Int) (memoD : String)
    (hpos : 0 < amtD) (hlen : (b :: rest).length = 20)
    (hw : hexOfBytes (b :: rest) ∈ watchD) :
    dbMatchCrypto watchD row
      { cryptoTransfer := some { transfers := some { accountAmounts :=
          [{ accountID := some { aliasBytes := some (b :: rest), accountNum := num },
             accountId := none, account := none, amount := amtD }] } },
        ethereumTransaction := none, memo := memoD } =
      [{ evmAddress := hexOfBytes (b :: rest), amountTinybar := amtD,
         transactionHash := row.transaction_hash,
         consensusTimestamp := row.consensus_timestamp,
         senderUsedEvmAddress := true,
         memo := if memoD = "" then none else some memoD }] := by
  unfold dbMatchCrypto
  dsimp only
  rw [List.filterMap_cons]
  rw [if_pos hpos]
  dsimp only [Option.orElse]
  rw [if_pos hlen, normalizeDb_hexOfBytes]
  dsimp only
  rw [if_pos hw]
  rfl

/-! ## Watermark-ordering lemmas -/

theorem wmLe_refl (a : Option Nat) : wmLe a a := by
  cases a <;> simp [wmLe]

theorem wmLe_trans {a b c : Option Nat} (h1 : wmLe a b) (h2 : wmLe b c) : wmLe a c := by
  cases a <;> cases b <;> cases c <;> (simp [wmLe] at *; try omega)

theorem afterWm_wmLe (wm : Option Nat) (m : Nat) (h : afterWm wm m = true) :
    wmLe wm (some m) := by
  cases wm with
  | none => trivial
  | some w0 =>
    simp only [afterWm, decide_eq_true_eq] at h
    exact Nat.le_of_lt h

theorem sorted_le_getLast (l : List Nat) (hs : l.Pairwise (· ≤ ·)) :
    ∀ a ∈ l, ∀ x, l.getLast? = some x → a ≤ x := by
  induction l with
  | nil => intro a ha; simp at ha
  | cons b t ih =>
    intro a ha x hx
    rcases t with _ | ⟨c, t'⟩
    · simp at hx ha
      omega
    · rw [show ((b :: c :: t').getLast? = (c :: t').getLast?) from rfl] at hx
      rcases List.mem_cons.mp ha with rfl | hat
      · exact (List.pairwise_cons.mp hs).1 x (List.mem_of_mem_getLast? hx)
      · exact ih (List.pairwise_cons.mp hs).2 a hat x hx

/-- One `poll` loop iteration, spelled out. -/
theorem stepTx_def (watch : List String) (details : DetailsOracle)
    (st : MonitorState) (log : List LogEntry) (tx : MirrorTx) :
    stepTx watch details (st, log) tx =
      ({ (processTransaction watch details st tx).1 with
          lastTimestamp := some tx.consensus_timestamp },
       log ++ [{ txId := tx.transaction_id, marker := tx.consensus_timestamp,
                 events := (processTransaction watch details st tx).2 }]) := by
  unfold stepTx
  rcases h : processTransaction watch details st tx with ⟨st', evs⟩
  simp [h]

theorem stepTx_wm (watch : List String) (details : DetailsOracle)
    (st : MonitorState) (log : List LogEntry) (tx : MirrorTx) :
    (stepTx watch details (st, log) tx).1.lastTimestamp = some tx.consensus_timestamp := by
  rw [stepTx_def]

/-- States evolve independently of the accumulated trace. -/
theorem pollStep_fst_log (watch : List String) (details : DetailsOracle)
    (st : MonitorState) (log log' : List LogEntry) (c : Except Unit (List MirrorTx)) :
    (pollStep watch details (st, log) c).1 = (pollStep watch details (st, log') c).1 := by
  rcases c with e | txs
  · rfl
  · show (txs.foldl (stepTx watch details) (st, log)).1 =
      (txs.foldl (stepTx watch details) (st, log')).1
    induction txs generalizing st log log' with
    | nil => rfl
    | cons tx rest ih =>
      simp only [List.foldl_cons]
      rw [stepTx_def, stepTx_def]
      exact ih _ _ _

theorem runFold_fst_log (watch : List String) (details : DetailsOracle) :
    ∀ (cycles : List (Except Unit (List MirrorTx))) (st : MonitorState)
      (log log' : List LogEntry),
    (cycles.foldl (pollStep watch details) (st, log)).1 =
      (cycles.foldl (pollStep watch details) (st, log')).1 := by
  intro cycles
  induction cycles with
  | nil => intro st log log'; rfl
  | cons c cs ih =>
    intro st log log'
    simp only [List.foldl_cons]
    rcases h1 : pollStep watch details (st, log) c with ⟨st1, l1⟩
    rcases h2 : pollStep watch details (st, log') c with ⟨st2, l2⟩
    have : st1 = st2 := by
      have := pollStep_fst_log watch details st log log' c
      rw [h1, h2] at this
      exact this
    subst this
    exact ih st1 l1 l2

/-- `LightInv` survives one processed transaction whose marker is at or
above the current watermark. -/
theorem stepTx_light (watch : List String) (details : DetailsOracle)
    (wm0 : Option Nat) (st : MonitorState) (log : List LogEntry) (tx : MirrorTx)
    (hinv : LightInv wm0 (st, log))
    (hge : wmLe st.lastTimestamp (some tx.consensus_timestamp)) :
    LightInv wm0 (stepTx watch details (st, log) tx) := by
  rcases hinv with ⟨hsort, hwm⟩
  rw [stepTx_def]
  constructor
  · simp only [List.map_append, List.map_cons, List.map_nil]
    rw [List.pairwise_append]
    refine ⟨hsort, List.pairwise_singleton _ _, ?_⟩
    intro a ha b hb
    rcases List.mem_singleton.mp hb with rfl
    rcases hlast : (log.map LogEntry.marker).getLast? with _ | mlast
    · rw [List.getLast?_eq_none_iff] at hlast
      rw [hlast] at ha
      simp at ha
    · have hale := sorted_le_getLast _ hsort a ha mlast hlast
      have hwm' : st.lastTimestamp = some mlast := by
        rw [hwm]
        unfold wmOf
        rw [List.getLast?_map] at hlast
        rcases hl2 : log.getLast? with _ | e <;> rw [hl2] at hlast
        · simp at hlast
        · simp only [Option.map_some'] at hlast
          rw [Option.some_inj] at hlast
          dsimp only
          rw [hlast]
      rw [hwm'] at hge
      exact le_trans hale hge
  · show some tx.consensus_timestamp = wmOf wm0 (log ++ [_])
    unfold wmOf
    rw [List.getLast?_concat]

/-- `LightInv` survives a whole sorted batch of markers at or above the
watermark, and the watermark never moves backwards. -/
theorem batch_light (watch : List String) (details : DetailsOracle) (wm0 : Option Nat) :
    ∀ (txs : List MirrorTx) (st : MonitorState) (log : List LogEntry),
    LightInv wm0 (st, log) →
    (∀ tx ∈ txs, wmLe st.lastTimestamp (some tx.consensus_timestamp)) →
    List.Pairwise (fun a b => a.consensus_timestamp ≤ b.consensus_timestamp) txs →
    LightInv wm0 (txs.foldl (stepTx watch details) (st, log)) ∧
      wmLe st.lastTimestamp
        (txs.foldl (stepTx watch details) (st, log)).1.lastTimestamp := by
  intro txs
  induction txs with
  | nil =>
    intro st log hinv _ _
    exact ⟨hinv, wmLe_refl _⟩
  | cons tx rest ih =>
    intro st log hinv hge hsort
    simp only [List.foldl_cons]
    rcases hstep : stepTx watch details (st, log) tx with ⟨st1, log1⟩
    have hinv1 : LightInv wm0 (st1, log1) := by
      rw [← hstep]
      exact stepTx_light watch details wm0 st log tx hinv
        (hge tx (List.mem_cons_self tx rest))
    have hwm1 : st1.lastTimestamp = some tx.consensus_timestamp := by
      rw [← stepTx_wm watch details st log tx, hstep]
    have hge1 : ∀ t ∈ rest, wmLe st1.lastTimestamp (some t.consensus_timestamp) := by
      intro t ht
      rw [hwm1]
      exact (List.pairwise_cons.mp hsort).1 t ht
    rcases ih st1 log1 hinv1 hge1 (List.pairwise_cons.mp hsort).2 with ⟨hfin, hle⟩
    refine ⟨hfin, ?_⟩
    refine wmLe_trans ?_ hle
    rw [hwm1]
    exact hge tx (List.mem_cons_self tx rest)

/-- `LightInv` survives a poll cycle honouring the fetch contract. -/
theorem pollStep_light (watch : List String) (details : DetailsOracle)
    (wm0 : Option Nat) (st : MonitorState) (log : List LogEntry)
    (c : Except Unit (List MirrorTx)) (hinv : LightInv wm0 (st, log))
    (hval : (match c with
      | .error _ => true
      | .ok txs => validBatch st.lastTimestamp txs) = true) :
    LightInv wm0 (pollStep watch details (st, log) c) ∧
      wmLe st.lastTimestamp (pollStep watch details (st, log) c).1.lastTimestamp := by
  rcases c with e | txs
  · exact ⟨hinv, wmLe_refl _⟩
  · simp only at hval
    unfold validBatch at hval
    rw [Bool.and_eq_true, Bool.and_eq_true] at hval
    have hgt := hval.1.1
    rw [List.all_eq_true] at hgt
    have hsort := of_decide_eq_true hval.1.2
    exact batch_light watch details wm0 txs st log hinv
      (fun tx htx => afterWm_wmLe _ _ (hgt tx htx)) hsort

/-- `LightInv` holds all along a valid run. -/
theorem runFold_light (watch : List String) (details : DetailsOracle) (wm0 : Option Nat) :
    ∀ (cycles : List (Except Unit (List MirrorTx))) (st : MonitorState)
      (log : List LogEntry),
    LightInv wm0 (st, log) → validRun watch details st cycles = true →
    LightInv wm0 (cycles.foldl (pollStep watch details) (st, log)) := by
  intro cycles
  induction cycles with
  | nil => intro st log hinv _; exact hinv
  | cons c cs ih =>
    intro st log hinv hv
    unfold validRun at hv
    rw [Bool.and_eq_true] at hv
    obtain ⟨hv1, hv2⟩ := hv
    simp only [List.foldl_cons]
    rcases hstep : pollStep watch details (st, log) c with ⟨st1, log1⟩
    have hinv1 : LightInv wm0 (st1, log1) := by
      rw [← hstep]
      exact (pollStep_light watch details wm0 st log c hinv hv1).1
    have hst1 : (pollStep watch details (st, []) c).1 = st1 := by
      rw [pollStep_fst_log watch details st [] log c, hstep]
    refine ih st1 log1 hinv1 ?_
    rw [← hst1]
    exact hv2

/-- Valid runs stay valid on prefixes. -/
theorem validRun_take (watch : List String) (details : DetailsOracle) :
    ∀ (cycles : List (Except Unit (List MirrorTx))) (st : MonitorState) (n : Nat),
    validRun watch details st cycles = true →
    validRun watch details st (cycles.take n) = true := by
  intro cycles
  induction cycles with
  | nil => intro st n _; simp [validRun]
  | cons c cs ih =>
    intro st n hv
    rcases n with _ | n
    · rfl
    · unfold validRun at hv ⊢
      rw [Bool.and_eq_true] at hv
      rw [List.take_succ_cons, Bool.and_eq_true]
      exact ⟨hv.1, ih _ n hv.2⟩

/-- The fetch contract of the cycle at index `n`, at the state the
scanner holds when issuing that fetch. -/
theorem validRun_batch_at (watch : List String) (details : DetailsOracle) :
    ∀ (cycles : List (Except Unit (List MirrorTx))) (st : MonitorState)
      (n : Nat) (h : n < cycles.length),
    validRun watch details st cycles = true →
    (match cycles.get ⟨n, h⟩ with
      | .error _ => true
      | .ok txs =>
        validBatch
          ((cycles.take n).foldl (pollStep watch details) (st, [])).1.lastTimestamp
          txs) = true := by
  intro cycles
  induction cycles with
  | nil => intro st n h; simp at h
  | cons c cs ih =>
    intro st n h hv
    unfold validRun at hv
    rw [Bool.and_eq_true] at hv
    rcases n with _ | n
    · exact hv.1
    · simp only [List.get, List.take_succ_cons, List.foldl_cons]
      have hnext := ih (pollStep watch details (st, []) c).1 n
        (Nat.lt_of_succ_lt_succ h) hv.2
      have heq : ((cs.take n).foldl (pollStep watch details)
          ((pollStep watch details (st, []) c).1, [])).1 =
          ((cs.take n).foldl (pollStep watch details)
            (pollStep watch details (st, []) c)).1 := by
        rcases hps : pollStep watch details (st, []) c with ⟨stA, logA⟩
        exact runFold_fst_log watch details (cs.take n) stA [] logA
      rw [← heq]
      exact hnext

/-- One db row always sets the cursor to its own (nonzero) timestamp. -/
theorem dbRowStep_fst (watch : List String) (acc : Nat × List DbEvent) (row : DbRow) :
    (dbRowStep watch acc row).1 =
      if row.consensus_timestamp = 0 then acc.1 else row.consensus_timestamp := by
  unfold dbRowStep
  dsimp only
  split
  · rfl
  · split <;> rfl

/-- The db cursor never moves backwards over rows at or above it. -/
theorem dbPollOnce_fold_fst_le (watch : List String) :
    ∀ (rows : List DbRow) (ts : Nat) (evs : List DbEvent),
    (∀ r ∈ rows, ts ≤ r.consensus_timestamp) →
    List.Pairwise (fun a b => a.consensus_timestamp ≤ b.consensus_timestamp) rows →
    ts ≤ (rows.foldl (dbRowStep watch) (ts, evs)).1 := by
  intro rows
  induction rows with
  | nil => intro ts evs _ _; exact le_refl ts
  | cons r rest ih =>
    intro ts evs hge hsort
    simp only [List.foldl_cons]
    rcases hstep : dbRowStep watch (ts, evs) r with ⟨ts1, evs1⟩
    have hfst : ts1 = if r.consensus_timestamp = 0 then ts else r.consensus_timestamp := by
      rw [← dbRowStep_fst watch (ts, evs) r, hstep]
    by_cases hz : r.consensus_timestamp = 0
    · have hts : ts = 0 := by
        have := hge r (List.mem_cons_self r rest)
        omega
      subst hts
      exact Nat.zero_le _
    · rw [if_neg hz] at hfst
      subst hfst
      refine le_trans (hge r (List.mem_cons_self r rest)) ?_
      exact ih r.consensus_timestamp evs1 (List.pairwise_cons.mp hsort).1
        (List.pairwise_cons.mp hsort).2

/-! ## Retained-suffix and tied-entry lemmas (exactly-once machinery) -/

theorem mem_of_mem_lastN {α : Type} (k : Nat) (l : List α) (x : α)
    (h : x ∈ lastN k l) : x ∈ l := by
  unfold lastN at h
  exact List.mem_of_mem_drop h

theorem lastN_mono {α : Type} (j k : Nat) (l : List α) (x : α) (hjk : j ≤ k)
    (hx : x ∈ lastN j l) : x ∈ lastN k l := by
  unfold lastN at *
  have hd : (l.drop (l.length - k)).drop ((l.length - j) - (l.length - k)) =
      l.drop (l.length - j) := by
    rw [List.drop_drop]
    congr 1
    omega
  rw [← hd] at hx
  exact List.mem_of_mem_drop hx

theorem lastN_append_one {α : Type} (k : Nat) (l : List α) (a : α) :
    lastN (k + 1) (l ++ [a]) = lastN k l ++ [a] := by
  unfold lastN
  rw [List.length_append]
  have h1 : l.length + [a].length - (k + 1) = l.length - k := by
    simp only [List.length_singleton]
    omega
  rw [h1, List.drop_append_of_le_length (Nat.sub_le _ _)]

theorem mem_lastN_last {α : Type} (k : Nat) (hk : 1 ≤ k) (l : List α) (a : α) :
    a ∈ lastN k (l ++ [a]) := by
  rcases k with _ | k
  · omega
  · rw [lastN_append_one]
    exact List.mem_append_right _ (List.mem_singleton.mpr rfl)

theorem lastN_trimSeen (k : Nat) (hk : k ≤ 5000) (l : List String) :
    lastN k (trimSeen l) = lastN k l := by
  unfold trimSeen
  split
  · unfold lastN
    rw [List.length_drop, List.drop_drop]
    congr 1
    omega
  · rfl

theorem mem_trimSeen (l : List String) (x : String) (h : x ∈ trimSeen l) : x ∈ l := by
  unfold trimSeen at h
  split at h
  · exact List.mem_of_mem_drop h
  · exact h

theorem trimSeen_concat (l : List String) (a : String) :
    ∃ l', trimSeen (l ++ [a]) = l' ++ [a] := by
  unfold trimSeen
  split
  · exact ⟨l.drop ((l ++ [a]).length - 5000),
      List.drop_append_of_le_length
        (by rw [List.length_append]; simp only [List.length_singleton]; omega)⟩
  · exact ⟨l, rfl⟩

theorem mem_trimSeen_last (l : List String) (a : String) : a ∈ trimSeen (l ++ [a]) := by
  obtain ⟨l', hl'⟩ := trimSeen_concat l a
  rw [hl']
  exact List.mem_append_right _ (List.mem_singleton.mpr rfl)

theorem tiedCount_append (wm : Option Nat) (log : List LogEntry) (e : LogEntry) :
    tiedCount wm (log ++ [e]) =
      tiedCount wm log + (if some e.marker = wm then 1 else 0) := by
  unfold tiedCount
  rw [List.filter_append, List.length_append]
  congr 1
  by_cases h : some e.marker = wm <;> simp [List.filter, h]

theorem emitters_append (l l' : List LogEntry) :
    emitters (l ++ l') = emitters l ++ emitters l' := by
  unfold emitters
  rw [List.filter_append, List.map_append]

theorem emitters_single (e : LogEntry) :
    emitters [e] = if e.events.isEmpty = true then [] else [e.txId] := by
  unfold emitters
  cases h : e.events.isEmpty <;> simp [List.filter, h]

theorem mem_emitters (log : List LogEntry) (x : String) :
    x ∈ emitters log ↔ ∃ e ∈ log, e.events ≠ [] ∧ e.txId = x := by
  unfold emitters
  rw [List.mem_map]
  constructor
  · rintro ⟨e, hmem, rfl⟩
    rw [List.mem_filter] at hmem
    refine ⟨e, hmem.1, ?_, rfl⟩
    have h2 := hmem.2
    rw [Bool.not_eq_true'] at h2
    intro hc
    rw [hc] at h2
    simp at h2
  · rintro ⟨e, he, hne, rfl⟩
    refine ⟨e, List.mem_filter.mpr ⟨he, ?_⟩, rfl⟩
    rw [Bool.not_eq_true']
    cases hiso : e.events.isEmpty
    · rfl
    · exact absurd (List.isEmpty_iff.mp hiso) hne

/-- Every logged marker is at or below the current watermark value. -/
theorem log_marker_le (wmInit : Option Nat) (st : MonitorState) (log : List LogEntry)
    (hinv : LightInv wmInit (st, log)) (e : LogEntry) (he : e ∈ log) :
    ∃ w, st.lastTimestamp = some w ∧ e.marker ≤ w := by
  rcases hinv with ⟨hsort, hwm⟩
  rcases hlast : log.getLast? with _ | eL
  · rw [List.getLast?_eq_none_iff] at hlast
    subst hlast
    simp at he
  · refine ⟨eL.marker, ?_, ?_⟩
    · rw [hwm]
      unfold wmOf
      rw [hlast]
    · refine sorted_le_getLast _ hsort e.marker
        (List.mem_map_of_mem LogEntry.marker he) eL.marker ?_
      rw [List.getLast?_map, hlast]
      rfl

/-- Nothing in the log ties a marker strictly above the watermark. -/
theorem tied_zero (wmInit : Option Nat) (st : MonitorState) (log : List LogEntry)
    (m : Nat) (hinv : LightInv wmInit (st, log))
    (hlt : afterWm st.lastTimestamp m = true) :
    tiedCount (some m) log = 0 := by
  unfold tiedCount
  rw [List.length_eq_zero, List.filter_eq_nil_iff]
  intro e he
  obtain ⟨w, hw, hle⟩ := log_marker_le wmInit st log hinv e he
  rw [hw] at hlt
  simp only [afterWm, decide_eq_true_eq] at hlt
  simp only [decide_eq_true_eq]
  intro hc
  rw [Option.some_inj] at hc
  omega

theorem afterWm_lt (w m : Nat) (h : afterWm (some w) m = true) : w < m := by
  simp [afterWm] at h
  exact h

/-- `CoreInv` survives one processed transaction whose marker is at or
above the watermark, provided the tied tail still fits in the retained
suffix and identifiers name unique markers across the pool; the tied
count grows by at most one. -/
theorem stepTx_core (watch : List String) (details : DetailsOracle)
    (wmInit : Option Nat) (pool : List MirrorTx)
    (st : MonitorState) (log : List LogEntry) (tx : MirrorTx)
    (hinv : CoreInv wmInit pool (st, log))
    (hpool : tx ∈ pool)
    (hid : idDeterminesMarker pool)
    (hge : wmLe st.lastTimestamp (some tx.consensus_timestamp))
    (htied : tiedCount st.lastTimestamp log + 1 ≤ 5000) :
    CoreInv wmInit pool (stepTx watch details (st, log) tx) ∧
      tiedCount (stepTx watch details (st, log) tx).1.lastTimestamp
          (stepTx watch details (st, log) tx).2 ≤
        tiedCount st.lastTimestamp log + 1 := by
  obtain ⟨hlight, hseenlog, hpoollog, hnodup, htie⟩ := hinv
  have hlight' := stepTx_light watch details wmInit st log tx hlight hge
  rcases hpt : processTransaction watch details st tx with ⟨stP, evs⟩
  have hstep : stepTx watch details (st, log) tx =
      ({ stP with lastTimestamp := some tx.consensus_timestamp },
       log ++ [{ txId := tx.transaction_id, marker := tx.consensus_timestamp,
                 events := evs }]) := by
    rw [stepTx_def, hpt]
  have hseenP := processTransaction_seen watch details st tx
  rw [hpt] at hseenP
  dsimp only at hseenP
  have hdup : ∀ e ∈ log, e.txId = tx.transaction_id →
      e.marker = tx.consensus_timestamp := by
    intro e he heq
    obtain ⟨t0, ht0, hid0, hm0⟩ := hpoollog e he
    rw [hm0]
    exact hid t0 ht0 tx hpool (by rw [← hid0]; exact heq)
  have hties : ∀ e ∈ log, e.txId = tx.transaction_id →
      some e.marker = st.lastTimestamp := by
    intro e he heq
    obtain ⟨w, hw, hle⟩ := log_marker_le wmInit st log hlight e he
    rw [hw, Option.some_inj]
    have hm := hdup e he heq
    have hwle : w ≤ tx.consensus_timestamp := by rw [hw] at hge; exact hge
    omega
  have hback : ∀ e ∈ log, e.marker = tx.consensus_timestamp →
      st.lastTimestamp = some tx.consensus_timestamp := by
    intro e he hm
    obtain ⟨w, hw, hle⟩ := log_marker_le wmInit st log hlight e he
    have hwle : w ≤ tx.consensus_timestamp := by rw [hw] at hge; exact hge
    rw [hw, Option.some_inj]
    omega
  have hKle : tiedCount (some tx.consensus_timestamp) log ≤
      tiedCount st.lastTimestamp log := by
    by_cases hwmc : st.lastTimestamp = some tx.consensus_timestamp
    · rw [hwmc]
    · have hafter : afterWm st.lastTimestamp tx.consensus_timestamp = true := by
        rcases hw : st.lastTimestamp with _ | w
        · rfl
        · rw [hw] at hge hwmc
          simp only [afterWm, decide_eq_true_eq]
          have h1 : w ≤ tx.consensus_timestamp := hge
          have h2 : w ≠ tx.consensus_timestamp := fun hc => hwmc (by rw [hc])
          omega
      rw [tied_zero wmInit st log tx.consensus_timestamp hlight hafter]
      omega
  rw [hstep] at hlight'
  rw [hstep]
  dsimp only
  refine ⟨⟨hlight', ?_, ?_, ?_, ?_⟩, ?_⟩
  · -- seen ids all come from log entries
    intro i hi
    dsimp only at hi
    rw [hseenP] at hi
    by_cases hseen : tx.transaction_id ∈ st.processedTxIds
    · rw [if_pos hseen] at hi
      obtain ⟨e, he, heid⟩ := hseenlog i hi
      exact ⟨e, List.mem_append_left _ he, heid⟩
    · rw [if_neg hseen] at hi
      have hi' := mem_trimSeen _ _ hi
      rcases List.mem_append.mp hi' with hold | hnew
      · obtain ⟨e, he, heid⟩ := hseenlog i hold
        exact ⟨e, List.mem_append_left _ he, heid⟩
      · rw [List.mem_singleton] at hnew
        refine ⟨{ txId := tx.transaction_id, marker := tx.consensus_timestamp, events := evs }, List.mem_append_right _ (List.mem_singleton.mpr rfl), ?_⟩
        dsimp only
        exact hnew.symm
  · -- logged pairs name pool transactions
    intro e he
    dsimp only at he
    rcases List.mem_append.mp he with hold | hnew
    · exact hpoollog e hold
    · rw [List.mem_singleton] at hnew
      subst hnew
      exact ⟨tx, hpool, rfl, rfl⟩
  · -- emitting ids stay unique
    dsimp only
    rw [emitters_append, emitters_single]
    by_cases hevs : evs = []
    · subst hevs
      simp only [List.isEmpty_nil, if_true, List.append_nil]
      exact hnodup
    · have hEne : ¬ (evs.isEmpty = true) := by
        rw [List.isEmpty_iff]
        exact hevs
      dsimp only
      rw [if_neg hEne, List.nodup_append]
      refine ⟨hnodup, List.nodup_singleton _, ?_⟩
      intro x hx hx'
      rw [List.mem_singleton] at hx'
      have hxid : x = tx.transaction_id := hx'
      obtain ⟨e0, he0, he0ne, he0id⟩ := (mem_emitters log x).mp hx
      have he0tx : e0.txId = tx.transaction_id := he0id.trans hxid
      have h1 := htie e0 he0 (hties e0 he0 he0tx)
      have hseen0 : tx.transaction_id ∈ st.processedTxIds := by
        have h2 := mem_of_mem_lastN _ _ _ h1
        rw [he0tx] at h2
        exact h2
      have hnotseen : tx.transaction_id ∉ st.processedTxIds := by
        have h3 := processTransaction_emits watch details st tx
        rw [hpt] at h3
        exact h3 hevs
      exact hnotseen hseen0
  · -- tied entries stay in the retained suffix
    intro e he hetie
    dsimp only at he hetie ⊢
    rw [hseenP, tiedCount_append]
    rw [if_pos rfl]
    rcases List.mem_append.mp he with hold | hnewE
    · have hm : e.marker = tx.consensus_timestamp := by
        rw [Option.some_inj] at hetie
        exact hetie
      have hwm_eq : st.lastTimestamp = some tx.consensus_timestamp := hback e hold hm
      have h1 := htie e hold (by rw [hwm_eq, hm])
      rw [hwm_eq] at h1
      by_cases hseen : tx.transaction_id ∈ st.processedTxIds
      · rw [if_pos hseen]
        exact lastN_mono _ _ _ _ (Nat.le_succ _) h1
      · rw [if_neg hseen]
        rw [lastN_trimSeen _ (by rw [← hwm_eq]; exact htied) _, lastN_append_one]
        exact List.mem_append_left _ h1
    · rw [List.mem_singleton] at hnewE
      subst hnewE
      dsimp only
      by_cases hseen : tx.transaction_id ∈ st.processedTxIds
      · rw [if_pos hseen]
        obtain ⟨e0, he0, he0id⟩ := hseenlog _ hseen
        have hwm_eq : st.lastTimestamp = some tx.consensus_timestamp :=
          hback e0 he0 (hdup e0 he0 he0id)
        have h1 := htie e0 he0 (hties e0 he0 he0id)
        rw [hwm_eq] at h1
        rw [← he0id]
        exact lastN_mono _ _ _ _ (Nat.le_succ _) h1
      · rw [if_neg hseen]
        obtain ⟨l', hl'⟩ := trimSeen_concat st.processedTxIds tx.transaction_id
        rw [hl']
        exact mem_lastN_last _ (Nat.le_add_left 1 _) l' _
  · -- the tied count grows by at most one
    rw [tiedCount_append]
    rw [if_pos rfl]
    omega

/-- `CoreInv` survives a sorted batch whose markers are at or above
the watermark; the tied count grows at most by the batch length. -/
theorem batch_core (watch : List String) (details : DetailsOracle)
    (wmInit : Option Nat) (pool : List MirrorTx) (hid : idDeterminesMarker pool) :
    ∀ (txs : List MirrorTx) (st : MonitorState) (log : List LogEntry),
    CoreInv wmInit pool (st, log) →
    (∀ t ∈ txs, t ∈ pool) →
    (∀ t ∈ txs, wmLe st.lastTimestamp (some t.consensus_timestamp)) →
    List.Pairwise (fun a b => a.consensus_timestamp ≤ b.consensus_timestamp) txs →
    tiedCount st.lastTimestamp log + txs.length ≤ 5000 →
    CoreInv wmInit pool (txs.foldl (stepTx watch details) (st, log)) ∧
      tiedCount (txs.foldl (stepTx watch details) (st, log)).1.lastTimestamp
          (txs.foldl (stepTx watch details) (st, log)).2 ≤
        tiedCount st.lastTimestamp log + txs.length := by
  intro txs
  induction txs with
  | nil =>
    intro st log hinv _ _ _ _
    exact ⟨hinv, Nat.le_add_right _ 0⟩
  | cons tx rest ih =>
    intro st log hinv hpool hge hsort hcap
    simp only [List.length_cons] at hcap
    simp only [List.foldl_cons]
    rcases hstep : stepTx watch details (st, log) tx with ⟨st1, log1⟩
    have hK1 := stepTx_core watch details wmInit pool st log tx hinv
      (hpool tx (List.mem_cons_self tx rest)) hid
      (hge tx (List.mem_cons_self tx rest)) (by omega)
    rw [hstep] at hK1
    dsimp only at hK1
    obtain ⟨hinv1, htied1⟩ := hK1
    have hwm1 : st1.lastTimestamp = some tx.consensus_timestamp := by
      rw [← stepTx_wm watch details st log tx, hstep]
    have hge1 : ∀ t ∈ rest, wmLe st1.lastTimestamp (some t.consensus_timestamp) := by
      intro t ht
      rw [hwm1]
      exact (List.pairwise_cons.mp hsort).1 t ht
    obtain ⟨hfin, hle⟩ := ih st1 log1 hinv1
      (fun t ht => hpool t (List.mem_cons_of_mem tx ht)) hge1
      (List.pairwise_cons.mp hsort).2 (by omega)
    refine ⟨hfin, ?_⟩
    simp only [List.length_cons]
    omega

/-- `CoreInv` survives a poll cycle honouring the fetch contract, and
the tied count is refreshed to at most the batch length. -/
theorem pollStep_core (watch : List String) (details : DetailsOracle)
    (wmInit : Option Nat) (pool : List MirrorTx)
    (st : MonitorState) (log : List LogEntry) (c : Except Unit (List MirrorTx))
    (hid : idDeterminesMarker pool)
    (hinv : CoreInv wmInit pool (st, log))
    (hval : (match c with
      | .error _ => true
      | .ok txs => validBatch st.lastTimestamp txs) = true)
    (hpool : ∀ txs, c = .ok txs → ∀ t ∈ txs, t ∈ pool)
    (htied : tiedCount st.lastTimestamp log ≤ 100) :
    CoreInv wmInit pool (pollStep watch details (st, log) c) ∧
      tiedCount (pollStep watch details (st, log) c).1.lastTimestamp
          (pollStep watch details (st, log) c).2 ≤ 100 := by
  rcases c with e | txs
  · exact ⟨hinv, htied⟩
  · have hpoolt := hpool txs rfl
    simp only at hval
    unfold validBatch at hval
    rw [Bool.and_eq_true, Bool.and_eq_true] at hval
    have hgt := hval.1.1
    rw [List.all_eq_true] at hgt
    have hsort := of_decide_eq_true hval.1.2
    have hlen : txs.length ≤ 100 := of_decide_eq_true hval.2
    show CoreInv wmInit pool (txs.foldl (stepTx watch details) (st, log)) ∧
      tiedCount (txs.foldl (stepTx watch details) (st, log)).1.lastTimestamp
        (txs.foldl (stepTx watch details) (st, log)).2 ≤ 100
    rcases txs with _ | ⟨t, ts⟩
    · exact ⟨hinv, htied⟩
    · simp only [List.length_cons] at hlen
      simp only [List.foldl_cons]
      rcases hstep : stepTx watch details (st, log) t with ⟨st1, log1⟩
      have hafter : afterWm st.lastTimestamp t.consensus_timestamp = true :=
        hgt t (List.mem_cons_self t ts)
      have hK1 := stepTx_core watch details wmInit pool st log t hinv
        (hpoolt t (List.mem_cons_self t ts)) hid
        (afterWm_wmLe _ _ hafter) (by omega)
      rw [hstep] at hK1
      dsimp only at hK1
      obtain ⟨hinv1, _⟩ := hK1
      have hwm1 : st1.lastTimestamp = some t.consensus_timestamp := by
        rw [← stepTx_wm watch details st log t, hstep]
      have hlog1 : log1 = log ++ [{ txId := t.transaction_id, marker := t.consensus_timestamp, events := (processTransaction watch details st t).2 }] := by
        have hd := stepTx_def watch details st log t
        rw [hstep, Prod.mk.injEq] at hd
        exact hd.2
      have htied1 : tiedCount st1.lastTimestamp log1 ≤ 1 := by
        rw [hwm1, hlog1, tiedCount_append]
        rw [tied_zero wmInit st log t.consensus_timestamp hinv.1 hafter]
        simp
      have hge1 : ∀ t' ∈ ts, wmLe st1.lastTimestamp (some t'.consensus_timestamp) := by
        intro t' ht'
        rw [hwm1]
        exact (List.pairwise_cons.mp hsort).1 t' ht'
      obtain ⟨hfin, hle⟩ := batch_core watch details wmInit pool hid ts st1 log1 hinv1
        (fun t' ht' => hpoolt t' (List.mem_cons_of_mem t ht')) hge1
        (List.pairwise_cons.mp hsort).2 (by omega)
      refine ⟨hfin, ?_⟩
      omega

/-- `CoreInv` holds all along a valid run over a pool covering every
delivered transaction, and the tied count stays within one page. -/
theorem runFold_core (watch : List String) (details : DetailsOracle)
    (wmInit : Option Nat) (pool : List MirrorTx) (hid : idDeterminesMarker pool) :
    ∀ (cycles : List (Except Unit (List MirrorTx))) (st : MonitorState)
      (log : List LogEntry),
    CoreInv wmInit pool (st, log) →
    tiedCount st.lastTimestamp log ≤ 100 →
    validRun watch details st cycles = true →
    (∀ t ∈ runTxs cycles, t ∈ pool) →
    CoreInv wmInit pool (cycles.foldl (pollStep watch details) (st, log)) ∧
      tiedCount (cycles.foldl (pollStep watch details) (st, log)).1.lastTimestamp
          (cycles.foldl (pollStep watch details) (st, log)).2 ≤ 100 := by
  intro cycles
  induction cycles with
  | nil => intro st log hinv htied _ _; exact ⟨hinv, htied⟩
  | cons c cs ih =>
    intro st log hinv htied hv hpool
    unfold validRun at hv
    rw [Bool.and_eq_true] at hv
    obtain ⟨hv1, hv2⟩ := hv
    simp only [List.foldl_cons]
    rcases hstep : pollStep watch details (st, log) c with ⟨st1, log1⟩
    have hpoolc : ∀ txs, c = .ok txs → ∀ t ∈ txs, t ∈ pool := by
      rintro txs rfl t ht
      refine hpool t ?_
      unfold runTxs
      rw [List.mem_flatMap]
      exact ⟨.ok txs, List.mem_cons_self _ cs, ht⟩
    have h1 := pollStep_core watch details wmInit pool st log c hid hinv hv1 hpoolc htied
    rw [hstep] at h1
    dsimp only at h1
    obtain ⟨hinv1, htied1⟩ := h1
    have hst1 : (pollStep watch details (st, []) c).1 = st1 := by
      rw [pollStep_fst_log watch details st [] log c, hstep]
    have hpoolcs : ∀ t ∈ runTxs cs, t ∈ pool := by
      intro t ht
      refine hpool t ?_
      unfold runTxs at ht ⊢
      rw [List.mem_flatMap] at ht ⊢
      obtain ⟨c', hc', htc'⟩ := ht
      exact ⟨c', List.mem_cons_of_mem c hc', htc'⟩
    refine ih st1 log1 hinv1 htied1 ?_ hpoolcs
    rw [← hst1]
    exact hv2

/-- Transactions delivered over a prefix of the run are delivered over
the run. -/
theorem runTxs_take_subset (cycles : List (Except Unit (List MirrorTx))) (n : Nat) :
    ∀ t ∈ runTxs (cycles.take n), t ∈ runTxs cycles := by
  intro t ht
  unfold runTxs at ht ⊢
  rw [List.mem_flatMap] at ht ⊢
  obtain ⟨c, hc, htc⟩ := ht
  exact ⟨c, List.take_subset n cycles hc, htc⟩

/-- The (identifier, marker) projection of the trace entries a batch
appends. -/
theorem batch_ids (watch : List String) (details : DetailsOracle) :
    ∀ (txs : List MirrorTx) (st : MonitorState) (log : List LogEntry),
    ((txs.foldl (stepTx watch details) (st, log)).2).map (fun e => (e.txId, e.marker)) =
      log.map (fun e => (e.txId, e.marker)) ++
        txs.map (fun t => (t.transaction_id, t.consensus_timestamp)) := by
  intro txs
  induction txs with
  | nil => intro st log; simp
  | cons t ts ih =>
    intro st log
    simp only [List.foldl_cons]
    rw [stepTx_def, ih]
    simp

/-- The (identifier, marker) projection of the trace entries a cycle
appends. -/
theorem pollStep_ids (watch : List String) (details : DetailsOracle)
    (st : MonitorState) (log : List LogEntry) (c : Except Unit (List MirrorTx)) :
    ((pollStep watch details (st, log) c).2).map (fun e => (e.txId, e.marker)) =
      log.map (fun e => (e.txId, e.marker)) ++
        (match c with
          | .error _ => ([] : List MirrorTx)
          | .ok txs => txs).map
          (fun (t : MirrorTx) => (t.transaction_id, t.consensus_timestamp)) := by
  rcases c with e | txs
  · simp [pollStep]
  · exact batch_ids watch details txs st log

/-- Every trace entry of a run projects to a delivered transaction. -/
theorem runFold_ids (watch : List String) (details : DetailsOracle) :
    ∀ (cycles : List (Except Unit (List MirrorTx))) (st : MonitorState)
      (log : List LogEntry),
    ((cycles.foldl (pollStep watch details) (st, log)).2).map
        (fun e => (e.txId, e.marker)) =
      log.map (fun e => (e.txId, e.marker)) ++
        (runTxs cycles).map (fun t => (t.transaction_id, t.consensus_timestamp)) := by
  intro cycles
  induction cycles with
  | nil => intro st log; simp [runTxs]
  | cons c cs ih =>
    intro st log
    simp only [List.foldl_cons]
    rcases hstep : pollStep watch details (st, log) c with ⟨st1, log1⟩
    rw [ih st1 log1]
    have hl1 := pollStep_ids watch details st log c
    rw [hstep] at hl1
    dsimp only at hl1
    rw [hl1]
    unfold runTxs
    simp [List.map_append, List.append_assoc]

/-- Under the strictly-greater fetch contract, every transaction a
valid run delivers lies strictly beyond the starting watermark. -/
theorem runTxs_fresh (watch : List String) (details : DetailsOracle) :
    ∀ (cycles : List (Except Unit (List MirrorTx))) (st : MonitorState) (w : Nat),
    validRun watch details st cycles = true →
    st.lastTimestamp = some w →
    ∀ t ∈ runTxs cycles, w < t.consensus_timestamp := by
  intro cycles
  induction cycles with
  | nil =>
    intro st w _ _ t ht
    simp [runTxs] at ht
  | cons c cs ih =>
    intro st w hv hw t ht
    unfold validRun at hv
    rw [Bool.and_eq_true] at hv
    obtain ⟨hv1, hv2⟩ := hv
    unfold runTxs at ht
    rw [List.mem_flatMap] at ht
    obtain ⟨c', hc', htc'⟩ := ht
    rcases List.mem_cons.mp hc' with heq | hcs
    · rw [heq] at htc'
      rcases c with e | txs
      · simp at htc'
      · simp only at htc' hv1
        unfold validBatch at hv1
        rw [Bool.and_eq_true, Bool.and_eq_true] at hv1
        have hgt := hv1.1.1
        rw [List.all_eq_true] at hgt
        have hall := hgt t htc'
        rw [hw] at hall
        exact afterWm_lt _ _ hall
    · have hmono := (pollStep_light watch details st.lastTimestamp st [] c
        ⟨List.Pairwise.nil, rfl⟩ hv1).2
      rcases hw1 : (pollStep watch details (st, []) c).1.lastTimestamp with _ | w1
      · rw [hw, hw1] at hmono
        exact hmono.elim
      · have hww1 : w ≤ w1 := by
          rw [hw, hw1] at hmono
          exact hmono
        have hrec := ih (pollStep watch details (st, []) c).1 w1 hv2 hw1 t
          (by unfold runTxs; rw [List.mem_flatMap]; exact ⟨c', hcs, htc'⟩)
        omega

/-! ## Claim theorems -/

/-- C5 (counterexample): the claim says `normalize` fails with
`InvalidAddress` whenever the input's length after prefix-stripping is
not 20 bytes (40 hex characters).  On the input `"0xabcd"` (2 bytes
after stripping) both implementations succeed: the db variant returns
`some "abcd"` (its only failure output, `none`, is reserved for falsy
input) and the part_004 variant, being total, returns `"abcd"`.  No
length validation exists anywhere in the code. -/
theorem normalize_rejects_nothing_counterexample :
    normalizeEvmAddressDb (some (.str "0xabcd")) = some "abcd" ∧
    "abcd".length ≠ 40 ∧
    normalizeEvmAddress "0xabcd" = "abcd" := by
  refine ⟨by decide, by decide, by decide⟩

/-- C5 (amended): `normalize` accepts a hex string (with or without the
`0x` marker) or a raw byte sequence *of any length*; byte input renders
as lowercase hex, textual hex re-normalizes to itself (idempotence), a
nonempty string never fails, and the part_004 variant lowercases and
strips the marker.  No length check is performed and no `InvalidAddress`
failure exists. -/
theorem normalize_accepts_any_length (bs : List Nat) (b : Nat) (s : String)
    (hs : s ≠ "") :
    normalizeEvmAddressDb (some (.bytes bs)) = some (hexOfBytes bs) ∧
    (hexOfBytes bs).length = 2 * bs.length ∧
    normalizeEvmAddressDb (some (.str (hexOfBytes (b :: bs)))) =
      some (hexOfBytes (b :: bs)) ∧
    (normalizeEvmAddressDb (some (.str s))).isSome = true ∧
    normalizeEvmAddress ("0x" ++ s) = lowerStr s := by
  refine ⟨?_, hexOfBytes_length bs, ?_, ?_, ?_⟩
  · simp only [normalizeEvmAddressDb]
    rw [lowerStr_hexOfBytes]
  · simp only [normalizeEvmAddressDb]
    have hne : hexOfBytes (b :: bs) ≠ "" := by
      intro hcon
      have := hexOfBytes_length (b :: bs)
      rw [hcon] at this
      simp at this
    rw [if_neg hne, lowerStr_hexOfBytes, remove0xLead_hexOfBytes]
  · simp only [normalizeEvmAddressDb]
    rw [if_neg hs]
    rfl
  · unfold normalizeEvmAddress lowerStr
    rw [String.data_append]
    show String.mk (remove0xFirst (List.map Char.toLower ('0' :: 'x' :: s.data))) = _
    simp only [List.map_cons]
    norm_num [remove0xFirst]

/-- C5 (amended, witness): concrete instantiation — a 2-byte sequence
and the string `"0XAbCd"`. -/
theorem normalize_accepts_any_length_witness :
    ("0XAbCd" : String) ≠ "" ∧
    (normalizeEvmAddressDb (some (.bytes [143, 49])) = some (hexOfBytes [143, 49]) ∧
     (hexOfBytes [143, 49]).length = 2 * ([143, 49] : List Nat).length ∧
     normalizeEvmAddressDb (some (.str (hexOfBytes (143 :: [143, 49])))) =
       some (hexOfBytes (143 :: [143, 49])) ∧
     (normalizeEvmAddressDb (some (.str "0XAbCd"))).isSome = true ∧
     normalizeEvmAddress ("0x" ++ "0XAbCd") = lowerStr "0XAbCd") :=
  ⟨by decide, normalize_accepts_any_length [143, 49] 143 "0XAbCd" (by decide)⟩

/-- C6 (counterexample): the claim says a malformed envelope fails with
a `DecodeError` carrying the name of the offending layer.  The decoder
of the db variant returns a bare `null` whatever layer is at fault:
bytes malformed at the outer `Transaction` layer, at the
`SignedTransaction` layer, and at the `TransactionBody` layer all
produce the identical, informationless result, so no layer name is
carried. -/
theorem decode_error_carries_no_layer_counterexample :
    parseTransactionBytes .bad = (none : Option TxBody) ∧
    parseTransactionBytes (.ok exPtBadSigned) = none ∧
    parseTransactionBytes (.ok exPtBadBody) = none ∧
    parseTransactionBytes (.bad : BField PTransaction) =
      parseTransactionBytes (.ok exPtBadBody) := by
  refine ⟨by decide, by decide, by decide, by decide⟩

/-- C6 (amended): malformed or truncated bytes at any nesting layer make
decoding return nothing (the caught error is discarded; no layer name is
reported), and the failure is non-fatal: the single transaction is
skipped and the cycle's event output is exactly what the batch without
that row produces. -/
theorem decode_failure_skips_single_transaction (watch : List String) (ts : Nat)
    (pre post : List DbRow) (row : DbRow)
    (hbad : parseTransactionBytes row.transaction_bytes = none) :
    (dbPollOnce watch ts (.ok (pre ++ row :: post))).2 =
      (dbPollOnce watch ts (.ok (pre ++ post))).2 := by
  rw [dbPollOnce_snd, dbPollOnce_snd]
  simp only [List.flatMap_append, List.flatMap_cons]
  have hrow : dbRowEvents watch row = [] := by
    unfold dbRowEvents
    split
    · rfl
    · rw [hbad]
  rw [hrow, List.nil_append]

/-- C6 (amended, witness): a batch of one malformed row followed by a
well-formed matching row — the malformed row contributes nothing and the
good row's event survives. -/
theorem decode_failure_skips_single_transaction_witness :
    parseTransactionBytes exRowBad.transaction_bytes = none ∧
    (dbPollOnce exWatch 0 (.ok ([] ++ exRowBad :: [exRowOk]))).2 =
      (dbPollOnce exWatch 0 (.ok ([] ++ [exRowOk]))).2 :=
  ⟨by decide,
   decode_failure_skips_single_transaction exWatch 0 [] [exRowOk] exRowBad (by decide)⟩

/-- C7: binding stability (first-writer-wins) — once the reconciler maps
an address to a ledger identifier, a further `updateCache` call for that
address is a no-op (whatever identifier it proposes), and the binding
survives any sequence of later `updateCache` calls: `lookup` keeps
returning the first identifier for the lifetime of the process. -/
theorem binding_first_writer_wins (st : MonitorState) (a id1 id2 : String)
    (ops : List (String × String))
    (h : st.evmToEntityCache.lookup (normalizeEvmAddress a) = some id1) :
    updateCache st a id2 = st ∧
    ((ops.foldl (fun s p => updateCache s p.1 p.2) st).evmToEntityCache.lookup
      (normalizeEvmAddress a)) = some id1 := by
  constructor
  · unfold updateCache
    simp [h]
  · exact foldUpdate_lookup_of_some ops st _ id1 h

/-- C7 (witness): bind `aabb ↦ 0.0.42`, then attempt `aabb ↦ 0.0.99`
followed by an unrelated bind — the lookup still returns `0.0.42`. -/
theorem binding_first_writer_wins_witness :
    exStateBind.evmToEntityCache.lookup (normalizeEvmAddress "aabb") = some "0.0.42" ∧
    (updateCache exStateBind "aabb" "0.0.99" = exStateBind ∧
     (([("aabb", "0.0.99"), ("ccdd", "0.0.7")].foldl
        (fun s p => updateCache s p.1 p.2) exStateBind).evmToEntityCache.lookup
        (normalizeEvmAddress "aabb")) = some "0.0.42") :=
  ⟨by decide,
   binding_first_writer_wins exStateBind "aabb" "0.0.42" "0.0.99"
     [("aabb", "0.0.99"), ("ccdd", "0.0.7")] (by decide)⟩

/-- C8: transport-error atomicity — a failed batch fetch leaves the
scanner state (watermark, seen-set, caches, trace) entirely unchanged,
so the next cycle re-runs from the same watermark; the db variant's
failed query likewise leaves its cursor unchanged and emits nothing. -/
theorem transport_error_atomicity (watch : List String) (details : DetailsOracle)
    (st : MonitorState) (log : List LogEntry) (ts : Nat)
    (cs : List (Except Unit (List MirrorTx))) :
    pollStep watch details (st, log) (.error ()) = (st, log) ∧
    runTrace watch details st (.error () :: cs) = runTrace watch details st cs ∧
    dbPollOnce watch ts (.error ()) = (ts, []) :=
  ⟨rfl, rfl, rfl⟩

/-- C9 (counterexample): the claim says the match step does not mutate
the reconciler's address-to-identifier mappings.  Processing the shipped
scenario (watched raw-alias credit, no prior binding) *does* mutate the
reconciler inside the match step: the binding
`8f31… ↦ 0.0.900` appears in both caches before the MatchEvent is even
emitted. -/
theorem matcher_mutates_reconciler_counterexample :
    (processTransaction exWatch exDetails exState0 exTxLazy).1.evmToEntityCache ≠
      exState0.evmToEntityCache ∧
    (processTransaction exWatch exDetails exState0 exTxLazy).1.evmToEntityCache.lookup
      "8f31e9fa14266c5da7f63bfc96811e08b7c09183" = some "0.0.900" ∧
    exState0.evmToEntityCache.lookup "8f31e9fa14266c5da7f63bfc96811e08b7c09183" = none := by
  refine ⟨by decide, by decide, by decide⟩

/-- C9 (amended): the match step may *add* a binding inline (the lazy
account resolution calls `updateCache` during matching), but it never
revises one: every address-to-identifier mapping present before the
match step, in either direction, is still returned unchanged after it. -/
theorem matcher_extends_but_never_revises_bindings (watch : List String)
    (details : DetailsOracle) (st : MonitorState) (tx : MirrorTx) (k v k2 v2 : String)
    (h : st.evmToEntityCache.lookup k = some v)
    (h2 : st.entityToEvmCache.lookup k2 = some v2) :
    (processTransaction watch details st tx).1.evmToEntityCache.lookup k = some v ∧
    (processTransaction watch details st tx).1.entityToEvmCache.lookup k2 = some v2 :=
  ⟨processTransaction_lookup_of_some watch details st tx k v h,
   processTransaction_reverse_of_some watch details st tx k2 v2 h2⟩

/-- C9 (amended, witness): with the alias already bound to `0.0.111`,
processing the lazy-creation transaction leaves both directions of the
binding intact. -/
theorem matcher_extends_but_never_revises_bindings_witness :
    exStateBound.evmToEntityCache.lookup
      "8f31e9fa14266c5da7f63bfc96811e08b7c09183" = some "0.0.111" ∧
    exStateBound.entityToEvmCache.lookup "0.0.111" =
      some "8f31e9fa14266c5da7f63bfc96811e08b7c09183" ∧
    ((processTransaction exWatch exDetails exStateBound exTxLazy).1.evmToEntityCache.lookup
        "8f31e9fa14266c5da7f63bfc96811e08b7c09183" = some "0.0.111" ∧
     (processTransaction exWatch exDetails exStateBound exTxLazy).1.entityToEvmCache.lookup
        "0.0.111" = some "8f31e9fa14266c5da7f63bfc96811e08b7c09183") :=
  ⟨by decide, by decide,
   matcher_extends_but_never_revises_bindings exWatch exDetails exStateBound exTxLazy
     _ _ _ _ (by decide) (by decide)⟩

/-- C4: credits-only decoding — only entries with strictly positive
amount pass the matcher's credit gate: the example credit/debit list
`[(addrA, +100), (idB, +50), (idC, −150)]` yields exactly the two
positive entries as considered transfer destinations, and no emitted
MatchEvent of either monitor variant ever carries a zero or negative
amount. -/
theorem credits_only_decoding (w : List String) (row : DbRow) (body : TxBody)
    (watch : List String) (details : DetailsOracle) (st : MonitorState) (tx : MirrorTx) :
    consideredDestinations exCreditList = [exEntryA, exEntryB] ∧
    (∀ e ∈ dbMatchCrypto w row body, 0 < e.amountTinybar) ∧
    (∀ ev ∈ (processTransaction watch details st tx).2, 0 < ev.amount) :=
  ⟨by decide, dbMatchCrypto_amount_pos w row body,
   processTransaction_amount_pos watch details st tx⟩

/-- C4 (witness): the db matcher's event for the well-formed row and the
REST monitor's event for the lazy-creation transaction both exist and
carry positive amounts. -/
theorem credits_only_decoding_witness :
    exDbEvent ∈ dbMatchCrypto exWatch exRowOk exBodyOk ∧
    exTransferEvent ∈ (processTransaction exWatch exDetails exState0 exTxLazy).2 ∧
    (0 : Int) < exDbEvent.amountTinybar ∧ (0 : Int) < exTransferEvent.amount :=
  ⟨by decide, by decide,
   (credits_only_decoding exWatch exRowOk exBodyOk exWatch exDetails exState0 exTxLazy).2.1
     exDbEvent (by decide),
   (credits_only_decoding exWatch exRowOk exBodyOk exWatch exDetails exState0 exTxLazy).2.2
     exTransferEvent (by decide)⟩

/-- C3: matcher output semantics — for a decoded transfer instruction
with positive amount: a `RawAlias` whose address is on the watchlist
yields exactly one MatchEvent with `senderUsedRawAlias = true` carrying
the credited quantity (REST and db variants); a `LedgerIdentifier`
yields a MatchEvent with `senderUsedRawAlias = false` exactly when the
reconciler's reverse lookup binds the resolved account (to a watched
address — the reconciler only ever stores watchlist members); an
unbound identifier yields zero MatchEvents. -/
theorem matcher_output_semantics :
    (∀ (watch : List String) (details : DetailsOracle) (st : MonitorState)
        (tx : MirrorTx) (addr : String) (amt : Int),
      tx.transaction_id ∉ st.processedTxIds →
      details tx.transaction_id =
        .ok (some [{ dest := .evmAddress addr, amountTinybar := amt }]) →
      0 < amt →
      isWatchedAddress watch addr = true →
      (∀ tr ∈ tx.transfers, st.entityToEvmCache.lookup tr.account = none) →
      ∃ r, (processTransaction watch details st tx).2 =
        [{ evmAddress := addr, amount := amt, transactionId := tx.transaction_id,
           consensusTimestamp := tx.consensus_timestamp, resolvedEntityId := r,
           senderUsedEvmAddress := true, detectionMethod := "tx_body_parse",
           memo := tx.memo }]) ∧
    (∀ (watch : List String) (details : DetailsOracle) (st : MonitorState)
        (tx : MirrorTx) (ent acc evm : String) (amt : Int),
      tx.transaction_id ∉ st.processedTxIds →
      details tx.transaction_id =
        .ok (some [{ dest := .entityId ent, amountTinybar := amt }]) →
      tx.transfers = [{ account := acc, amount := amt }] →
      st.entityToEvmCache.lookup acc = some evm →
      evm ∈ watch →
      0 < amt →
      (processTransaction watch details st tx).2 =
        [{ evmAddress := evm, amount := amt, transactionId := tx.transaction_id,
           consensusTimestamp := tx.consensus_timestamp, resolvedEntityId := some acc,
           senderUsedEvmAddress := false, detectionMethod := "entity_cache",
           memo := tx.memo }]) ∧
    (∀ (watch : List String) (details : DetailsOracle) (st : MonitorState)
        (tx : MirrorTx) (ent : String) (amt : Int),
      tx.transaction_id ∉ st.processedTxIds →
      details tx.transaction_id =
        .ok (some [{ dest := .entityId ent, amountTinybar := amt }]) →
      (∀ tr ∈ tx.transfers, st.entityToEvmCache.lookup tr.account = none) →
      (processTransaction watch details st tx).2 = []) ∧
    (∀ (watchD : List String) (row : DbRow) (b : Nat) (rest : List Nat)
        (num : Option Nat) (amtD : Int) (memoD : String),
      0 < amtD → (b :: rest).length = 20 → hexOfBytes (b :: rest) ∈ watchD →
      dbMatchCrypto watchD row
        { cryptoTransfer := some { transfers := some { accountAmounts :=
            [{ accountID := some { aliasBytes := some (b :: rest), accountNum := num },
               accountId := none, account := none, amount := amtD }] } },
          ethereumTransaction := none, memo := memoD } =
        [{ evmAddress := hexOfBytes (b :: rest), amountTinybar := amtD,
           transactionHash := row.transaction_hash,
           consensusTimestamp := row.consensus_timestamp,
           senderUsedEvmAddress := true,
           memo := if memoD = "" then none else some memoD }]) :=
  ⟨fun watch details st tx addr amt hseen hd hpos hw hnone =>
    matcher_alias_case watch details st tx addr amt hseen hd hpos hw hnone,
   fun watch details st tx ent acc evm amt hseen hd htr hlook _ hpos =>
    matcher_entity_case watch details st tx ent acc evm amt hseen hd htr hlook hpos,
   fun watch details st tx ent amt hseen hd hnone =>
    matcher_unbound_case watch details st tx ent amt hseen hd hnone,
   fun watchD row b rest num amtD memoD hpos hlen hw =>
    matcher_db_case watchD row b rest num amtD memoD hpos hlen hw⟩

/-- C3 (witness): the spec's end-to-end scenarios — the watched
raw-alias credit of 1000000 tinybar yields one raw-alias event; the
entity-id transfer to the bound account yields one entity-cache event;
the same transfer against an empty reconciler yields zero events; the db
matcher on the 20-byte alias yields its raw-alias event. -/
theorem matcher_output_semantics_witness :
    (∃ r, (processTransaction exWatch exDetails exState0 exTxLazy).2 =
      [{ evmAddress := "0x8F31E9FA14266C5DA7F63BFC96811E08B7C09183", amount := 1000000,
         transactionId := exTxLazy.transaction_id,
         consensusTimestamp := exTxLazy.consensus_timestamp, resolvedEntityId := r,
         senderUsedEvmAddress := true, detectionMethod := "tx_body_parse",
         memo := exTxLazy.memo }]) ∧
    (processTransaction exWatch exDetailsEntity exStateEntity exTxEntity).2 =
      [{ evmAddress := "8f31e9fa14266c5da7f63bfc96811e08b7c09183", amount := 555,
         transactionId := exTxEntity.transaction_id,
         consensusTimestamp := exTxEntity.consensus_timestamp,
         resolvedEntityId := some "0.0.700", senderUsedEvmAddress := false,
         detectionMethod := "entity_cache", memo := exTxEntity.memo }] ∧
    (processTransaction exWatch exDetailsEntity exState0 exTxEntity).2 = [] ∧
    dbMatchCrypto exWatch exRowOk exEntityBodySingleton =
      [{ evmAddress := hexOfBytes exAliasBytes, amountTinybar := 1000000,
         transactionHash := exRowOk.transaction_hash,
         consensusTimestamp := exRowOk.consensus_timestamp,
         senderUsedEvmAddress := true,
         memo := if "m" = "" then none else some "m" }] :=
  ⟨matcher_output_semantics.1 exWatch exDetails exState0 exTxLazy
      "0x8F31E9FA14266C5DA7F63BFC96811E08B7C09183" 1000000
      (by decide) rfl (by decide) (by decide) (by decide),
   matcher_output_semantics.2.1 exWatch exDetailsEntity exStateEntity exTxEntity
      "0.0.700" "0.0.700" "8f31e9fa14266c5da7f63bfc96811e08b7c09183" 555
      (by decide) rfl rfl (by decide) (by decide) (by decide),
   matcher_output_semantics.2.2.1 exWatch exDetailsEntity exState0 exTxEntity
      "0.0.700" 555 (by decide) rfl (by decide),
   matcher_output_semantics.2.2.2 exWatch exRowOk 0x8f
      [0x31, 0xe9, 0xfa, 0x14, 0x26, 0x6c, 0x5d, 0xa7, 0xf6,
       0x3b, 0xfc, 0x96, 0x81, 0x1e, 0x08, 0xb7, 0xc0, 0x91, 0x83]
      none 1000000 "m" (by decide) (by decide) (by decide)⟩

/-- C2: watermark monotonicity — on every valid run the scan cursor
never decreases at any step; whenever some transaction was processed the
watermark equals the position marker of the latest (last, and maximal)
transaction processed across all cycles; a cycle whose fetch returns an
empty page leaves state and trace unchanged; and the db variant's cursor
likewise never decreases over a batch honouring its query contract and
is untouched by an empty result. -/
theorem watermark_monotonicity :
    (∀ (watch : List String) (details : DetailsOracle) (st0 : MonitorState)
        (cycles : List (Except Unit (List MirrorTx))) (n : Nat),
      validRun watch details st0 cycles = true →
      wmLe (runTrace watch details st0 (cycles.take n)).1.lastTimestamp
        (runTrace watch details st0 (cycles.take (n + 1))).1.lastTimestamp) ∧
    (∀ (watch : List String) (details : DetailsOracle) (st0 : MonitorState)
        (cycles : List (Except Unit (List MirrorTx))),
      validRun watch details st0 cycles = true →
      (runTrace watch details st0 cycles).2 ≠ [] →
      ∃ e, (runTrace watch details st0 cycles).2.getLast? = some e ∧
        (runTrace watch details st0 cycles).1.lastTimestamp = some e.marker ∧
        ∀ e' ∈ (runTrace watch details st0 cycles).2, e'.marker ≤ e.marker) ∧
    (∀ (watch : List String) (details : DetailsOracle) (st : MonitorState)
        (log : List LogEntry),
      pollStep watch details (st, log) (.ok []) = (st, log)) ∧
    (∀ (watch : List String) (ts : Nat) (rows : List DbRow),
      (∀ r ∈ rows, ts < r.consensus_timestamp) →
      List.Pairwise (fun a b => a.consensus_timestamp ≤ b.consensus_timestamp) rows →
      ts ≤ (dbPollOnce watch ts (.ok rows)).1 ∧
        (dbPollOnce watch ts (.ok ([] : List DbRow))).1 = ts) := by
  refine ⟨?_, ?_, ?_, ?_⟩
  · intro watch details st0 cycles n hv
    by_cases hn : n < cycles.length
    · have htake : cycles.take (n + 1) = cycles.take n ++ [cycles.get ⟨n, hn⟩] := by
        rw [← List.take_concat_get cycles n hn]
        simp [List.concat_eq_append]
      rw [htake]
      show wmLe ((cycles.take n).foldl (pollStep watch details) (st0, [])).1.lastTimestamp
        ((cycles.take n ++ [cycles.get ⟨n, hn⟩]).foldl
          (pollStep watch details) (st0, [])).1.lastTimestamp
      rw [List.foldl_append]
      rcases hfold : (cycles.take n).foldl (pollStep watch details) (st0, [])
        with ⟨stN, logN⟩
      have hlight : LightInv st0.lastTimestamp (stN, logN) := by
        rw [← hfold]
        exact runFold_light watch details st0.lastTimestamp (cycles.take n) st0 []
          ⟨List.Pairwise.nil, rfl⟩ (validRun_take watch details cycles st0 n hv)
      have hval := validRun_batch_at watch details cycles st0 n hn hv
      rw [hfold] at hval
      simpa using
        (pollStep_light watch details st0.lastTimestamp stN logN
          (cycles.get ⟨n, hn⟩) hlight hval).2
    · rw [List.take_of_length_le (Nat.le_of_not_lt hn),
          List.take_of_length_le (le_trans (Nat.le_of_not_lt hn) (Nat.le_succ n))]
      exact wmLe_refl _
  · intro watch details st0 cycles hv hne
    have hl := runFold_light watch details st0.lastTimestamp cycles st0 []
      ⟨List.Pairwise.nil, rfl⟩ hv
    rcases hl with ⟨hsort, hwm⟩
    unfold runTrace at hne ⊢
    rcases hlast : (cycles.foldl (pollStep watch details) (st0, [])).2.getLast? with _ | e
    · rw [List.getLast?_eq_none_iff] at hlast
      exact absurd hlast hne
    · refine ⟨e, rfl, ?_, ?_⟩
      · rw [hwm]
        unfold wmOf
        rw [hlast]
      · intro e' he'
        refine sorted_le_getLast _ hsort e'.marker
          (List.mem_map_of_mem LogEntry.marker he') e.marker ?_
        rw [List.getLast?_map, hlast]
        rfl
  · intro watch details st log
    rfl
  · intro watch ts rows hgt hsort
    constructor
    · show ts ≤ (rows.foldl (dbRowStep watch) (ts, [])).1
      exact dbPollOnce_fold_fst_le watch rows ts []
        (fun r hr => Nat.le_of_lt (hgt r hr)) hsort
    · rfl

/-- C2 (witness): a one-cycle valid run over the lazy-creation
transaction — cursor moves from unset to its marker, the final watermark
is the marker of the single processed transaction, an empty page is the
identity, and the db cursor advances over the single valid row. -/
theorem watermark_monotonicity_witness :
    validRun exWatch exDetails exState0 [.ok [exTxLazy]] = true ∧
    (runTrace exWatch exDetails exState0 [.ok [exTxLazy]]).2 ≠ [] ∧
    (∀ r ∈ [exRowOk], (0 : Nat) < r.consensus_timestamp) ∧
    wmLe (runTrace exWatch exDetails exState0 ([.ok [exTxLazy]].take 0)).1.lastTimestamp
      (runTrace exWatch exDetails exState0 ([.ok [exTxLazy]].take 1)).1.lastTimestamp ∧
    (∃ e, (runTrace exWatch exDetails exState0 [.ok [exTxLazy]]).2.getLast? = some e ∧
      (runTrace exWatch exDetails exState0 [.ok [exTxLazy]]).1.lastTimestamp =
        some e.marker ∧
      ∀ e' ∈ (runTrace exWatch exDetails exState0 [.ok [exTxLazy]]).2,
        e'.marker ≤ e.marker) ∧
    pollStep exWatch exDetails (exState0, []) (.ok []) = (exState0, []) ∧
    (0 ≤ (dbPollOnce exWatch 0 (.ok [exRowOk])).1 ∧
      (dbPollOnce exWatch 0 (.ok ([] : List DbRow))).1 = 0) :=
  ⟨by decide, by decide, by decide,
   watermark_monotonicity.1 exWatch exDetails exState0 [.ok [exTxLazy]] 0 (by decide),
   watermark_monotonicity.2.1 exWatch exDetails exState0 [.ok [exTxLazy]]
     (by decide) (by decide),
   watermark_monotonicity.2.2.1 exWatch exDetails exState0 [],
   watermark_monotonicity.2.2.2 exWatch 0 [exRowOk] (by decide) (by decide)⟩

/-- C1: exactly-once emission.  Along any valid run from a fresh
seen-set, over deliveries in which an identifier names a unique
position marker, no transaction identifier appears in two emitting
trace entries — so no event (hence no (identifier, transfer index)
pair) is emitted twice, and a batch repeating an identifier emits that
transaction's transfers only once — and at every prefix of the run the
bounded seen-set trim has retained every identifier whose position
marker ties the current watermark. -/
theorem exactly_once_emission (watch : List String) (details : DetailsOracle)
    (st0 : MonitorState) (cycles : List (Except Unit (List MirrorTx)))
    (hseen0 : st0.processedTxIds = [])
    (hv : validRun watch details st0 cycles = true)
    (hid : idDeterminesMarker (runTxs cycles)) :
    (emitters (runTrace watch details st0 cycles).2).Nodup ∧
    ∀ n, ∀ e ∈ (runTrace watch details st0 (cycles.take n)).2,
      some e.marker = (runTrace watch details st0 (cycles.take n)).1.lastTimestamp →
      e.txId ∈ (runTrace watch details st0 (cycles.take n)).1.processedTxIds := by
  have hinv0 : CoreInv st0.lastTimestamp (runTxs cycles) (st0, []) := by
    refine ⟨⟨List.Pairwise.nil, rfl⟩, ?_, ?_, ?_, ?_⟩
    · intro i hi
      rw [hseen0] at hi
      simp at hi
    · intro e he
      simp at he
    · exact List.nodup_nil
    · intro e he
      simp at he
  constructor
  · have h := runFold_core watch details st0.lastTimestamp (runTxs cycles) hid cycles
      st0 [] hinv0 (by simp [tiedCount]) hv (fun t ht => ht)
    exact h.1.2.2.2.1
  · intro n
    have hvn := validRun_take watch details cycles st0 n hv
    have h := runFold_core watch details st0.lastTimestamp (runTxs cycles) hid
      (cycles.take n) st0 [] hinv0 (by simp [tiedCount]) hvn
      (runTxs_take_subset cycles n)
    intro e he htieE
    exact mem_of_mem_lastN _ _ _ (h.1.2.2.2.2 e he htieE)

/-- C1 (witness): a one-cycle run whose fetched page repeats the same
transaction (simulated page overlap) — the hypotheses hold concretely,
the emitting entries are unique and ties stay in the seen-set, and the
trace shows one emitting entry followed by an empty duplicate entry. -/
theorem exactly_once_emission_witness :
    exState0.processedTxIds = [] ∧
    validRun exWatch exDetails exState0 exCycleDup = true ∧
    idDeterminesMarker (runTxs exCycleDup) ∧
    ((emitters (runTrace exWatch exDetails exState0 exCycleDup).2).Nodup ∧
      ∀ n, ∀ e ∈ (runTrace exWatch exDetails exState0 (exCycleDup.take n)).2,
        some e.marker =
          (runTrace exWatch exDetails exState0 (exCycleDup.take n)).1.lastTimestamp →
        e.txId ∈
          (runTrace exWatch exDetails exState0 (exCycleDup.take n)).1.processedTxIds) ∧
    (runTrace exWatch exDetails exState0 exCycleDup).2.map
        (fun e => (e.txId, e.events.length)) =
      [("0.0.5-1700000000-000000001", 1), ("0.0.5-1700000000-000000001", 0)] :=
  ⟨rfl, by decide, by decide,
   exactly_once_emission exWatch exDetails exState0 exCycleDup rfl (by decide) (by decide),
   by decide⟩

/-- C10: a failed per-transaction detail fetch is absorbed inside the
processing step — the identifier is already recorded in the seen-set,
only entity-cache matches are emitted for the transaction, and the
watermark still advances to its position marker; since later valid
fetches are strictly-greater and an identifier names one marker, the
transaction is never logged (hence never emitted, and the inner fetch
never retried) in any later cycle. -/
theorem detail_fetch_failure_semantics (watch : List String) (details : DetailsOracle)
    (st : MonitorState) (log : List LogEntry) (tx : MirrorTx)
    (cycles : List (Except Unit (List MirrorTx)))
    (herr : details tx.transaction_id = .error ())
    (hnew : tx.transaction_id ∉ st.processedTxIds)
    (hv : validRun watch details (stepTx watch details (st, log) tx).1 cycles = true)
    (hid : idDeterminesMarker (tx :: runTxs cycles)) :
    tx.transaction_id ∈ (processTransaction watch details st tx).1.processedTxIds ∧
    (∀ ev ∈ (processTransaction watch details st tx).2,
      ev.detectionMethod = "entity_cache") ∧
    (stepTx watch details (st, log) tx).1.lastTimestamp =
      some tx.consensus_timestamp ∧
    ∀ e ∈ (runTrace watch details (stepTx watch details (st, log) tx).1 cycles).2,
      e.txId ≠ tx.transaction_id := by
  refine ⟨?_, ?_, stepTx_wm watch details st log tx, ?_⟩
  · rw [processTransaction_seen, if_neg hnew]
    exact mem_trimSeen_last st.processedTxIds tx.transaction_id
  · intro ev hev
    rw [processTransaction_events watch details st tx hnew, herr] at hev
    dsimp only at hev
    rw [snd_ite_pair] at hev
    have hev2 := mem_ite_nil _ _ _ hev
    rw [List.append_nil, List.mem_map] at hev2
    obtain ⟨m, hm, hme⟩ := hev2
    rw [← hme]
    exact checkTransfers_source _ _ m hm
  · intro e he heq
    have hmem : (e.txId, e.marker) ∈
        ((cycles.foldl (pollStep watch details)
          ((stepTx watch details (st, log) tx).1, ([] : List LogEntry))).2).map
          (fun e => (e.txId, e.marker)) :=
      List.mem_map_of_mem _ he
    rw [runFold_ids] at hmem
    simp only [List.map_nil, List.nil_append] at hmem
    rw [List.mem_map] at hmem
    obtain ⟨t', ht', hproj⟩ := hmem
    have htid : t'.transaction_id = tx.transaction_id := by
      have h1 := congrArg Prod.fst hproj
      dsimp only at h1
      rw [h1]
      exact heq
    have hm' : t'.consensus_timestamp = tx.consensus_timestamp :=
      hid t' (List.mem_cons_of_mem tx ht') tx (List.mem_cons_self tx (runTxs cycles)) htid
    have hfresh := runTxs_fresh watch details cycles
      (stepTx watch details (st, log) tx).1 tx.consensus_timestamp hv
      (stepTx_wm watch details st log tx) t' ht'
    omega

/-- C10 (witness): processing the lazy-creation transaction under an
always-throwing detail oracle, followed by one valid later cycle — the
id lands in the seen-set, the step absorbs the error, the watermark
advances to marker 10, and the later cycle never logs that id. -/
theorem detail_fetch_failure_semantics_witness :
    exDetailsErr exTxLazy.transaction_id = .error () ∧
    exTxLazy.transaction_id ∉ exState0.processedTxIds ∧
    validRun exWatch exDetailsErr
      (stepTx exWatch exDetailsErr (exState0, []) exTxLazy).1 [.ok [exTxLater]] = true ∧
    idDeterminesMarker (exTxLazy :: runTxs [.ok [exTxLater]]) ∧
    (exTxLazy.transaction_id ∈
        (processTransaction exWatch exDetailsErr exState0 exTxLazy).1.processedTxIds ∧
      (∀ ev ∈ (processTransaction exWatch exDetailsErr exState0 exTxLazy).2,
        ev.detectionMethod = "entity_cache") ∧
      (stepTx exWatch exDetailsErr (exState0, []) exTxLazy).1.lastTimestamp =
        some exTxLazy.consensus_timestamp ∧
      ∀ e ∈ (runTrace exWatch exDetailsErr
          (stepTx exWatch exDetailsErr (exState0, []) exTxLazy).1 [.ok [exTxLater]]).2,
        e.txId ≠ exTxLazy.transaction_id) :=
  ⟨rfl, by decide, by decide, by decide,
   detail_fetch_failure_semantics exWatch exDetailsErr exState0 [] exTxLazy
     [.ok [exTxLater]] rfl (by decide) (by decide) (by decide)⟩

end HederaMonitor
